import Mathlib

/-!
Verification of the C-subset compiler pipeline (lexer, parser, resolver,
TAC generator, assembly backend) of the repository under review.

The Rust sources are shallowly embedded: each Rust function becomes an
executable Lean definition.  Mutable state (the lexer position, the parser
token buffer, the TAC instruction list, the pseudo-register map) is passed
explicitly.  Rust `Result` values, panics (`unwrap`, out-of-bounds
indexing, `panic!`) and the explicit recursion fuel used to model source
`while` loops are captured by the `PRes` type.  Machine integers (`i32`)
are modelled as `Int`; the only place the 32-bit range matters is
`str::parse::<i32>()`, modelled by an explicit range check.  Character
classification (`is_whitespace`, `is_alphabetic`, `is_alphanumeric`)
follows the ASCII fragment, which agrees with the Rust Unicode versions on
the ASCII-sufficient inputs the compiler documents.
-/

namespace CComp

/-- Outcome of a fallible computation: `ok` and `err` mirror Rust
`Result::Ok` / `Result::Err`; `panic` marks a Rust panic (failed `unwrap`,
out-of-bounds index, `panic!`); `nofuel` marks exhaustion of the explicit
recursion fuel used to model source-level `while` loops and is never
returned when enough fuel is supplied. -/
inductive PRes (α : Type) where
  | ok (a : α)
  | err (msg : String)
  | panic
  | nofuel
  deriving DecidableEq

instance : Monad PRes where
  pure := .ok
  bind m f :=
    match m with
    | .ok a => f a
    | .err s => .err s
    | .panic => .panic
    | .nofuel => .nofuel

/-- Little-endian decimal digits of `n`, fuel-driven so that it reduces by
`rfl`; any `fuel ≥ n` gives the exact digit list. -/
def decDigits : Nat → Nat → List Nat
  | 0, _ => []
  | fuel+1, n => if n = 0 then [] else n % 10 :: decDigits fuel (n / 10)

/-- Decimal rendering of a natural number, as produced by Rust
`format!` for `usize` values. -/
def natToString (n : Nat) : String :=
  if n = 0 then "0" else String.mk ((decDigits n n).reverse.map Nat.digitChar)

/-- Value recovered from a little-endian digit list; left inverse of
`decDigits`, used to prove `natToString` injective. -/
def fromDecDigits (l : List Nat) : Nat :=
  l.foldr (fun d acc => d + 10 * acc) 0

/-- Decimal rendering of an `i32` value as printed by Rust `format!`. -/
def intToString (v : Int) : String :=
  if v < 0 then "-" ++ natToString v.natAbs else natToString v.natAbs

/-! ### Lexer (src/lex.rs)

The lexer keeps the full source text and a cursor `pos`; `text.get? pos`
models `self.text.chars().nth(self.pos)`. -/

/-- Token tags of `lex::TokenType`. -/
inductive TokenType where
  | IDENTIFIER
  | CONSTANT
  | KEYWORD
  | OpenParen
  | CloseParen
  | OpenBrace
  | CloseBrace
  | SEMICOLON
  | SLASH
  | COMMENT
  | LongComment
  | STAR
  | PLUS
  | MODULUS
  | TildeOp
  | NegationOp
  | DecrementOp
  | AMPERSAND
  | PIPE
  | CARET
  | LessThan
  | GreaterThan
  | LeftShift
  | RightShift
  | LogicalNot
  | LogicalAnd
  | LogicalOr
  | Assignment
  | Equal
  | NotEqual
  | GreaterThanOrEqual
  | LessThanOrEqual
  | Tag
  | QuestionMark
  | Colon
  deriving DecidableEq

/-- Printable variant name, standing in for the Rust `Debug` derive. -/
def TokenType.debugName : TokenType → String
  | .IDENTIFIER => "IDENTIFIER"
  | .CONSTANT => "CONSTANT"
  | .KEYWORD => "KEYWORD"
  | .OpenParen => "OpenParen"
  | .CloseParen => "CloseParen"
  | .OpenBrace => "OpenBrace"
  | .CloseBrace => "CloseBrace"
  | .SEMICOLON => "SEMICOLON"
  | .SLASH => "SLASH"
  | .COMMENT => "COMMENT"
  | .LongComment => "LongComment"
  | .STAR => "STAR"
  | .PLUS => "PLUS"
  | .MODULUS => "MODULUS"
  | .TildeOp => "TildeOp"
  | .NegationOp => "NegationOp"
  | .DecrementOp => "DecrementOp"
  | .AMPERSAND => "AMPERSAND"
  | .PIPE => "PIPE"
  | .CARET => "CARET"
  | .LessThan => "LessThan"
  | .GreaterThan => "GreaterThan"
  | .LeftShift => "LeftShift"
  | .RightShift => "RightShift"
  | .LogicalNot => "LogicalNot"
  | .LogicalAnd => "LogicalAnd"
  | .LogicalOr => "LogicalOr"
  | .Assignment => "Assignment"
  | .Equal => "Equal"
  | .NotEqual => "NotEqual"
  | .GreaterThanOrEqual => "GreaterThanOrEqual"
  | .LessThanOrEqual => "LessThanOrEqual"
  | .Tag => "Tag"
  | .QuestionMark => "QuestionMark"
  | .Colon => "Colon"

/-- A lexed token: tag plus lexeme text (`lex::Token`). -/
structure Token where
  tokenType : TokenType
  value : String
  deriving DecidableEq

/-- Rust `Debug` rendering of a token, used in parser error messages. -/
def Token.debug (t : Token) : String :=
  "Token \x7b token_type: " ++ t.tokenType.debugName ++ ", value: \"" ++ t.value ++ "\" \x7d"

/-- The reserved keyword set built in `Lex::identifier`. -/
def keywords : List String := ["if", "else", "while", "for", "return", "int"]

/-- Rust `Lex::skip_whitespace`: advance the cursor past whitespace. -/
def skipWhitespace (text : List Char) : Nat → Nat → Nat
  | 0, pos => pos
  | fuel+1, pos =>
    match text.get? pos with
    | some c => if c.isWhitespace then skipWhitespace text fuel (pos+1) else pos
    | none => pos

/-- Digit-run scan of `Lex::number`: returns the collected lexeme and the
cursor after the run. -/
def scanNumber (text : List Char) : Nat → Nat → List Char → List Char × Nat
  | 0, pos, acc => (acc, pos)
  | fuel+1, pos, acc =>
    match text.get? pos with
    | some c =>
      if c.isDigit then scanNumber text fuel (pos+1) (acc ++ [c]) else (acc, pos)
    | none => (acc, pos)

/-- Continuation characters of an identifier: alphanumeric or underscore
(`current_char.is_alphanumeric() || current_char == '_'`). -/
def isIdentCont (c : Char) : Bool := c.isAlphanum || c = '_'

/-- Continuation-character run of `Lex::identifier`. -/
def scanIdentRun (text : List Char) : Nat → Nat → List Char → List Char × Nat
  | 0, pos, acc => (acc, pos)
  | fuel+1, pos, acc =>
    match text.get? pos with
    | some c =>
      if isIdentCont c then scanIdentRun text fuel (pos+1) (acc ++ [c])
      else (acc, pos)
    | none => (acc, pos)

/-- Rust `Lex::identifier`: read the first character (panicking on
out-of-bounds `unwrap` or a non-identifier start, exactly as the source
does), scan the continuation run, and classify against `keywords`. -/
def scanIdentifier (text : List Char) (pos : Nat) : PRes (Token × Nat) :=
  match text.get? pos with
  | none => .panic
  | some first =>
    if first.isAlpha || first = '_' then
      let run := scanIdentRun text (text.length + 1) (pos+1) []
      let value := String.mk (first :: run.1)
      if keywords.contains value then
        .ok ({ tokenType := .KEYWORD, value := value }, run.2)
      else
        .ok ({ tokenType := .IDENTIFIER, value := value }, run.2)
    else .panic

/-- Cursor advance of a line comment / preprocessor tag: collect characters
up to (not including) the next newline. -/
def scanToNewline (text : List Char) : Nat → Nat → List Char → List Char × Nat
  | 0, pos, acc => (acc, pos)
  | fuel+1, pos, acc =>
    match text.get? pos with
    | some c =>
      if c = '\n' then (acc, pos)
      else scanToNewline text fuel (pos+1) (acc ++ [c])
    | none => (acc, pos)

/-- Body loop of the block-comment branch of `Lex::next`: push the current
character; on `*` immediately followed by `/` push the slash and stop,
otherwise continue.  Unterminated comments stop silently at end of input. -/
def scanLongComment (text : List Char) : Nat → Nat → List Char → List Char × Nat
  | 0, pos, acc => (acc, pos)
  | fuel+1, pos, acc =>
    match text.get? pos with
    | none => (acc, pos)
    | some c =>
      if c = '*' then
        match text.get? (pos+1) with
        | some '/' => (acc ++ ['*', '/'], pos+2)
        | _ => scanLongComment text fuel (pos+1) (acc ++ ['*'])
      else scanLongComment text fuel (pos+1) (acc ++ [c])

/-- Rust `Lex::next`: skip whitespace, then dispatch on the first
character.  Returns `none` at end of input, the token and the new cursor
otherwise; lexing errors carry the exact formatted source messages. -/
def lexNext (text : List Char) (pos0 : Nat) : PRes (Option (Token × Nat)) :=
  let pos := skipWhitespace text (text.length + 1) pos0
  match text.get? pos with
  | none => .ok none
  | some c =>
    if c.isDigit then
      let run := scanNumber text (text.length + 1) pos []
      match text.get? run.2 with
      | some c2 =>
        if c2.isAlpha then
          .err ("Invalid constant followed by identifier at position " ++
            natToString run.2 ++ ": '" ++ String.mk text ++ "'")
        else .ok (some ({ tokenType := .CONSTANT, value := String.mk run.1 }, run.2))
      | none => .ok (some ({ tokenType := .CONSTANT, value := String.mk run.1 }, run.2))
    else if ('a' ≤ c ∧ c ≤ 'z') ∨ ('A' ≤ c ∧ c ≤ 'Z') then do
      let r ← scanIdentifier text pos
      pure (some r)
    else if c = '(' then .ok (some ({ tokenType := .OpenParen, value := "(" }, pos+1))
    else if c = ')' then .ok (some ({ tokenType := .CloseParen, value := ")" }, pos+1))
    else if c = '\x7b' then .ok (some ({ tokenType := .OpenBrace, value := "\x7b" }, pos+1))
    else if c = '\x7d' then .ok (some ({ tokenType := .CloseBrace, value := "\x7d" }, pos+1))
    else if c = ';' then .ok (some ({ tokenType := .SEMICOLON, value := ";" }, pos+1))
    else if c = '/' then
      match text.get? (pos+1) with
      | some '/' =>
        let run := scanToNewline text (text.length + 1) (pos+2) []
        .ok (some ({ tokenType := .COMMENT, value := "//" }, run.2))
      | some '*' =>
        let run := scanLongComment text (text.length + 1) (pos+2) []
        .ok (some ({ tokenType := .LongComment, value := "/*" ++ String.mk run.1 }, run.2))
      | _ => .ok (some ({ tokenType := .SLASH, value := "/" }, pos+1))
    else if c = '*' then .ok (some ({ tokenType := .STAR, value := "*" }, pos+1))
    else if c = '~' then .ok (some ({ tokenType := .TildeOp, value := "~" }, pos+1))
    else if c = '-' then
      match text.get? (pos+1) with
      | some '-' => .ok (some ({ tokenType := .DecrementOp, value := "--" }, pos+2))
      | _ => .ok (some ({ tokenType := .NegationOp, value := "-" }, pos+1))
    else if c = '%' then .ok (some ({ tokenType := .MODULUS, value := "%" }, pos+1))
    else if c = '+' then .ok (some ({ tokenType := .PLUS, value := "+" }, pos+1))
    else if c = '&' then
      match text.get? (pos+1) with
      | some '&' => .ok (some ({ tokenType := .LogicalAnd, value := "&&" }, pos+2))
      | _ => .ok (some ({ tokenType := .AMPERSAND, value := "&" }, pos+1))
    else if c = '|' then
      match text.get? (pos+1) with
      | some '|' => .ok (some ({ tokenType := .LogicalOr, value := "||" }, pos+2))
      | _ => .ok (some ({ tokenType := .PIPE, value := "|" }, pos+1))
    else if c = '^' then .ok (some ({ tokenType := .CARET, value := "^" }, pos+1))
    else if c = '<' then
      match text.get? (pos+1) with
      | some '<' => .ok (some ({ tokenType := .LeftShift, value := "<<" }, pos+2))
      | some '=' => .ok (some ({ tokenType := .LessThanOrEqual, value := "<=" }, pos+2))
      | _ => .ok (some ({ tokenType := .LessThan, value := "<" }, pos+1))
    else if c = '>' then
      match text.get? (pos+1) with
      | some '>' => .ok (some ({ tokenType := .RightShift, value := ">>" }, pos+2))
      | some '=' => .ok (some ({ tokenType := .GreaterThanOrEqual, value := ">=" }, pos+2))
      | _ => .ok (some ({ tokenType := .GreaterThan, value := ">" }, pos+1))
    else if c = '!' then
      match text.get? (pos+1) with
      | some '=' => .ok (some ({ tokenType := .NotEqual, value := "!=" }, pos+2))
      | _ => .ok (some ({ tokenType := .LogicalNot, value := "!" }, pos+1))
    else if c = '=' then
      match text.get? (pos+1) with
      | some '=' => .ok (some ({ tokenType := .Equal, value := "==" }, pos+2))
      | _ => .ok (some ({ tokenType := .Assignment, value := "=" }, pos+1))
    else if c = '#' then
      let run := scanToNewline text (text.length + 1) (pos+1) []
      .ok (some ({ tokenType := .Tag, value := "#" ++ String.mk run.1 }, run.2))
    else if c = '?' then .ok (some ({ tokenType := .QuestionMark, value := "?" }, pos+1))
    else if c = ':' then .ok (some ({ tokenType := .Colon, value := ":" }, pos+1))
    else
      .err ("Invalid character '" ++ String.singleton c ++ "' found at position " ++
        natToString pos ++ " in text '" ++ String.mk text ++ "'")

/-- Rust `Lex::get_tokens`: collect tokens while the cursor is inside the
text.  A lexing error makes the Rust driver `process::exit(1)`; here it is
propagated as `err`. -/
def getTokens (text : List Char) : Nat → Nat → List Token → PRes (List Token)
  | 0, _, _ => .nofuel
  | fuel+1, pos, acc =>
    if pos < text.length then
      match lexNext text pos with
      | .ok none => .ok acc
      | .ok (some (t, pos2)) => getTokens text fuel pos2 (acc ++ [t])
      | .err s => .err s
      | .panic => .panic
      | .nofuel => .nofuel
    else .ok acc

/-- Lex a whole source string. -/
def lexAll (s : String) : PRes (List Token) :=
  getTokens s.data (s.data.length + 1) 0 []

/-- Comment-discarding filter performed by the driver (`main.rs`) before
parsing. -/
def removeComments (ts : List Token) : List Token :=
  ts.filter (fun t => t.tokenType != TokenType.COMMENT && t.tokenType != TokenType.LongComment)

/-! ### Parser AST (src/parser.rs) -/

/-- Unary operators of `parser::UnaryOp`. -/
inductive UnaryOp where
  | negation
  | complement
  | logicalNot
  deriving DecidableEq

/-- Binary operators of `parser::BinaryOp` (assignment included, as in the
source). -/
inductive BinaryOp where
  | add
  | subtract
  | multiply
  | divide
  | modulo
  | leftShift
  | rightShift
  | bitwiseAnd
  | bitwiseOr
  | bitwiseXor
  | logicalAnd
  | logicalOr
  | equal
  | notEqual
  | greaterThan
  | lessThan
  | greaterThanOrEqual
  | lessThanOrEqual
  | assignment
  deriving DecidableEq

mutual
/-- Factors of `parser::Factor`: integer constants, unary applications, and
the `Factor::Exp` wrapper holding a parenthesized expression or a variable
read. -/
inductive Factor where
  | int (value : Int)
  | unary (op : UnaryOp) (f : Factor)
  | exp (e : Exp)

/-- Expressions of `parser::Exp`. -/
inductive Exp where
  | var (name : String)
  | factor (f : Factor)
  | binary (l : Exp) (op : BinaryOp) (r : Exp)
  | assignment (l : Exp) (r : Exp)
end

/-- Statements of `parser::Statement`; `ret` is the source `Return`
variant. -/
inductive Statement where
  | ret (e : Exp)
  | expression (e : Exp)
  | null

/-- Declarations of `parser::Declaration`. -/
inductive Declaration where
  | decl (name : String) (init : Option Exp)

/-- Block items of `parser::BlockItem`. -/
inductive BlockItem where
  | d (declaration : Declaration)
  | s (statement : Statement)

/-- Functions of `parser::FunctionDeclaration`. -/
inductive FunctionDeclaration where
  | function (name : String) (items : List BlockItem)

/-- Programs of `parser::Program`. -/
inductive Program where
  | program (f : FunctionDeclaration)

/-! ### Parser functions (src/parser.rs)

The Rust parser consumes a `Vec<Token>` from the front (`tokens.remove(0)`
/ `tokens[0]`); the Lean embedding passes the remaining token list.
Indexing an empty buffer and `unwrap` on a failed `i32` parse are Rust
panics and are modelled by `PRes.panic`.  The mutually recursive
expression parser and the statement-list loop recurse on explicit fuel. -/

/-- Rust `expect_int_keyword`: checks the lexeme only. -/
def expectIntKeyword (t : Token) : PRes Unit :=
  if t.value ≠ "int" then .err ("Expected int keyword, got '" ++ t.value ++ "'")
  else .ok ()

/-- Rust `expect_main_keyword`: checks the lexeme only. -/
def expectMainKeyword (t : Token) : PRes Unit :=
  if t.value ≠ "main" then .err ("Expected main keyword, got '" ++ t.value ++ "'")
  else .ok ()

/-- Rust `expect_void_keyword`: checks the lexeme only, so the
identifier-typed token 'void' passes. -/
def expectVoidKeyword (t : Token) : PRes Unit :=
  if t.value ≠ "void" then .err ("Expected void keyword, got '" ++ t.value ++ "'")
  else .ok ()

/-- Rust `expect_identifier` in its live `expected = None` form. -/
def expectIdentifierAny (t : Token) : PRes Unit :=
  if t.tokenType ≠ TokenType.IDENTIFIER then
    .err ("Expected identifier, got '" ++ t.value ++ "'")
  else .ok ()

/-- Rust `expect_token_type`. -/
def expectTokenType (t : Token) (tt : TokenType) : PRes Unit :=
  if t.tokenType ≠ tt then
    .err ("Expected token type " ++ tt.debugName ++ ", got " ++ t.tokenType.debugName)
  else .ok ()

/-- Digit-string to numeric value (the CONSTANT lexemes are digit runs). -/
def digitsToNat (l : List Char) : Nat :=
  l.foldl (fun acc c => acc * 10 + (c.toNat - 48)) 0

/-- Rust `str::parse::<i32>()` on a constant lexeme: `none` models the
`Err` case (empty/non-digit text or a value above `i32::MAX`), which the
caller unwraps into a panic. -/
def parseI32 (s : String) : Option Int :=
  if s.data.isEmpty || !s.data.all Char.isDigit then none
  else
    let n := digitsToNat s.data
    if n ≤ 2147483647 then some (Int.ofNat n) else none

/-- Rust `get_operator_precedence`. -/
def getOperatorPrecedence : BinaryOp → Nat
  | .multiply | .divide | .modulo => 50
  | .add | .subtract => 45
  | .leftShift | .rightShift => 45
  | .bitwiseAnd => 44
  | .bitwiseXor => 43
  | .bitwiseOr => 42
  | .greaterThan | .lessThan | .greaterThanOrEqual | .lessThanOrEqual => 35
  | .equal | .notEqual => 30
  | .logicalAnd => 10
  | .logicalOr => 5
  | .assignment => 1

/-- Rust `parse_op`: token to binary operator; `none` models the `Err`
case, which the expression loop treats as end of expression. -/
def parseOp (t : Token) : Option BinaryOp :=
  match t.tokenType with
  | .PLUS => some .add
  | .NegationOp => some .subtract
  | .STAR => some .multiply
  | .SLASH => some .divide
  | .MODULUS => some .modulo
  | .AMPERSAND => some .bitwiseAnd
  | .PIPE => some .bitwiseOr
  | .CARET => some .bitwiseXor
  | .LeftShift => some .leftShift
  | .RightShift => some .rightShift
  | .Equal => some .equal
  | .NotEqual => some .notEqual
  | .GreaterThan => some .greaterThan
  | .LessThan => some .lessThan
  | .GreaterThanOrEqual => some .greaterThanOrEqual
  | .LessThanOrEqual => some .lessThanOrEqual
  | .LogicalAnd => some .logicalAnd
  | .LogicalOr => some .logicalOr
  | .Assignment => some .assignment
  | _ => none

mutual
/-- Rust `parse_factor`. -/
def parseFactor : Nat → List Token → PRes (Factor × List Token)
  | 0, _ => .nofuel
  | fuel+1, tokens =>
    match tokens with
    | [] => .err "Unexpected end of file while parsing factor"
    | token :: rest =>
      if token.tokenType = TokenType.CONSTANT then
        match parseI32 token.value with
        | some v => .ok (.int v, rest)
        | none => .panic
      else if token.tokenType = TokenType.IDENTIFIER then
        .ok (.exp (.var token.value), rest)
      else if token.tokenType = TokenType.NegationOp then do
        let r ← parseFactor fuel rest
        pure (.unary .negation r.1, r.2)
      else if token.tokenType = TokenType.TildeOp then do
        let r ← parseFactor fuel rest
        pure (.unary .complement r.1, r.2)
      else if token.tokenType = TokenType.LogicalNot then do
        let r ← parseFactor fuel rest
        pure (.unary .logicalNot r.1, r.2)
      else if token.tokenType = TokenType.OpenParen then do
        let r ← parseExpression fuel rest 0
        match r.2 with
        | [] => .err "Unexpected end of file; expected closing parenthesis"
        | t2 :: rest3 => do
          expectTokenType t2 TokenType.CloseParen
          pure (.exp r.1, rest3)
      else .err ("Unexpected token while parsing factor: " ++ token.debug)

/-- Rust `parse_expression`: parse a factor, then run the
precedence-climbing loop. -/
def parseExpression : Nat → List Token → Nat → PRes (Exp × List Token)
  | 0, _, _ => .nofuel
  | fuel+1, tokens, minPrec => do
    let r ← parseFactor fuel tokens
    parseExpLoop fuel (.factor r.1) r.2 minPrec

/-- The `while` loop of `parse_expression`: while the next token is a
binary operator of precedence at least `minPrec`, assignment recurses at
the same precedence, every other operator at precedence + 1. -/
def parseExpLoop : Nat → Exp → List Token → Nat → PRes (Exp × List Token)
  | 0, _, _, _ => .nofuel
  | fuel+1, left, tokens, minPrec =>
    match tokens with
    | [] => .ok (left, [])
    | t :: rest =>
      match parseOp t with
      | none => .ok (left, t :: rest)
      | some op =>
        if getOperatorPrecedence op < minPrec then .ok (left, t :: rest)
        else if t.tokenType = TokenType.Assignment then do
          let r ← parseExpression fuel rest (getOperatorPrecedence op)
          parseExpLoop fuel (.assignment left r.1) r.2 minPrec
        else do
          let r ← parseExpression fuel rest (getOperatorPrecedence op + 1)
          parseExpLoop fuel (.binary left op r.1) r.2 minPrec
end

/-- Final semicolon handling shared by both arms of `parse_declaration`. -/
def finishDeclaration (nameTok : Token) (e : Option Exp) (tokens : List Token) :
    PRes (Declaration × List Token) :=
  match tokens with
  | [] => .err "Unexpected end of file; expected ';'"
  | semi :: rest => do
    expectTokenType semi TokenType.SEMICOLON
    pure (.decl nameTok.value e, rest)

/-- Rust `parse_declaration`. -/
def parseDeclaration (fuel : Nat) (tokens : List Token) : PRes (Declaration × List Token) :=
  match tokens with
  | [] => .err "Unexpected end of file while parsing declaration"
  | intTok :: rest => do
    expectIntKeyword intTok
    match rest with
    | [] => .err "Unexpected end of file; expected identifier"
    | nameTok :: rest2 => do
      expectIdentifierAny nameTok
      match rest2 with
      | [] => .err "Unexpected end of file; expected ';' or '='"
      | next :: rest3 =>
        if next.tokenType = TokenType.Assignment then
          match rest3 with
          | [] => .err "Unexpected end of file; expected expression after '='"
          | _ => do
            let r ← parseExpression fuel rest3 0
            finishDeclaration nameTok (some r.1) r.2
        else finishDeclaration nameTok none (next :: rest3)

/-- Rust `parse_statement`. -/
def parseStatement (fuel : Nat) (tokens : List Token) : PRes (Statement × List Token) :=
  match tokens with
  | [] => .err "Unexpected end of file while parsing statement"
  | token :: rest =>
    if token.tokenType = TokenType.SEMICOLON then .ok (.null, rest)
    else if token.tokenType = TokenType.KEYWORD ∧ token.value = "return" then
      match rest with
      | [] => .err "Unexpected end of file after 'return'"
      | _ => do
        let r ← parseExpression fuel rest 0
        match r.2 with
        | [] => .err "Unexpected end of file; expected semicolon"
        | semi :: rest3 => do
          expectTokenType semi TokenType.SEMICOLON
          pure (.ret r.1, rest3)
    else do
      let r ← parseExpression fuel (token :: rest) 0
      match r.2 with
      | [] => .err "Unexpected end of file; expected semicolon"
      | semi :: rest3 => do
        expectTokenType semi TokenType.SEMICOLON
        pure (.expression r.1, rest3)

/-- Rust `parse_block_items` (one item): indexes `tokens[0]`, so an empty
buffer is a panic; a leading `int` lexeme selects a declaration. -/
def parseBlockItem (fuel : Nat) (tokens : List Token) : PRes (BlockItem × List Token) :=
  match tokens with
  | [] => .panic
  | t :: _ =>
    if t.value = "int" then do
      let r ← parseDeclaration fuel tokens
      pure (.d r.1, r.2)
    else do
      let r ← parseStatement fuel tokens
      pure (.s r.1, r.2)

/-- Body loop of `parse_function_declaration`:
`while tokens[0].token_type != CloseBrace` — the condition itself indexes
`tokens[0]`, so running out of tokens before the closing brace is a panic
(index out of bounds), not an `Err`. -/
def parseItemsLoop : Nat → List Token → List BlockItem → PRes (List BlockItem × List Token)
  | 0, _, _ => .nofuel
  | fuel+1, tokens, acc =>
    match tokens with
    | [] => .panic
    | t :: rest =>
      if t.tokenType = TokenType.CloseBrace then .ok (acc, t :: rest)
      else do
        let r ← parseBlockItem fuel (t :: rest)
        parseItemsLoop fuel r.2 (acc ++ [r.1])

/-- Rust `parse_function_declaration`: `int main ( void ) \x7b item* \x7d`
followed by the trailing-token check. -/
def parseFunctionDeclaration (fuel : Nat) (tokens : List Token) : PRes FunctionDeclaration :=
  match tokens with
  | [] => .err "Unexpected end of file while parsing function declaration"
  | intTok :: r1 => do
    expectIntKeyword intTok
    match r1 with
    | [] => .err "Unexpected end of file; expected function name"
    | nameTok :: r2 => do
      expectMainKeyword nameTok
      match r2 with
      | [] => .err "Unexpected end of file; expected opening parenthesis"
      | opTok :: r3 => do
        expectTokenType opTok TokenType.OpenParen
        match r3 with
        | [] => .err "Unexpected end of file; expected 'void' or closing parenthesis"
        | voidTok :: r4 => do
          expectVoidKeyword voidTok
          match r4 with
          | [] => .err "Unexpected end of file; expected closing parenthesis"
          | cpTok :: r5 => do
            expectTokenType cpTok TokenType.CloseParen
            match r5 with
            | [] => .err "Unexpected end of file; expected opening brace"
            | obTok :: r6 => do
              expectTokenType obTok TokenType.OpenBrace
              let r ← parseItemsLoop fuel r6 []
              match r.2 with
              | [] => .err "Unexpected end of file; expected closing brace"
              | cbTok :: r8 => do
                expectTokenType cbTok TokenType.CloseBrace
                match r8 with
                | [] => pure (.function nameTok.value r.1)
                | extra :: _ => .err ("Unexpected token: " ++ extra.debug)

/-- Rust `parse_program`. -/
def parseProgram (fuel : Nat) (tokens : List Token) : PRes Program :=
  match tokens with
  | [] => .err "Empty program"
  | _ => do
    let fd ← parseFunctionDeclaration fuel tokens
    pure (.program fd)

/-! ### Resolver (src/parser.rs, `resolve_*`)

The symbol table `HashMap<String, String>` is modelled as an association
list with newest binding first; `List.lookup` therefore sees exactly the
binding a `HashMap` insert would have overwritten to. -/

/-- Symbol table of the resolver: source name to unique name. -/
abbrev SymbolTable := List (String × String)

/-- Loop body of Rust `make_temporary`: try `name`, then `name.1`,
`name.2`, … until the candidate is not a key of the table.  The fuel
`table.length + 1` of `makeTemporary` is enough for every call site the
source has (the loop body runs zero times there). -/
def makeTemporaryLoop (name : String) (table : SymbolTable) :
    Nat → Nat → String → String
  | 0, _, tempName => tempName
  | fuel+1, counter, tempName =>
    if (table.lookup tempName).isSome then
      makeTemporaryLoop name table fuel (counter+1)
        (name ++ "." ++ natToString (counter+1))
    else tempName

/-- Rust `make_temporary`. -/
def makeTemporary (name : String) (table : SymbolTable) : String :=
  makeTemporaryLoop name table (table.length + 1) 0 name

/-- Shape check on the resolved left side of an assignment: a variable,
possibly wrapped in a single `Factor::Exp`. -/
def isVarTarget : Exp → Bool
  | .var _ => true
  | .factor (.exp (.var _)) => true
  | _ => false

mutual
/-- Rust `resolve_expression`.  The `Exp::Factor` arm of the source is the
nested factor match, split off as `resolveFactorE` so that the recursion
is structural. -/
def resolveExp : Exp → SymbolTable → PRes Exp
  | .assignment l r, table => do
    let resolvedLeft ← resolveExp l table
    let resolvedRight ← resolveExp r table
    if isVarTarget resolvedLeft then
      pure (.assignment resolvedLeft resolvedRight)
    else .err "Left side of assignment must resolve to a variable"
  | .var name, table =>
    match table.lookup name with
    | none => .err ("Variable '" ++ name ++ "' not declared")
    | some uniqueName => .ok (.var uniqueName)
  | .binary l op r, table => do
    let resolvedLeft ← resolveExp l table
    let resolvedRight ← resolveExp r table
    pure (.binary resolvedLeft op resolvedRight)
  | .factor f, table => resolveFactorE f table

/-- Factor arm of Rust `resolve_expression` (the match on `factor` inside
the `Exp::Factor` case); the unary case recurses through
`resolve_expression(Exp::Factor(*factor))`, which dispatches right back
here. -/
def resolveFactorE : Factor → SymbolTable → PRes Exp
  | .int value, _ => .ok (.factor (.int value))
  | .unary op f, table =>
    match resolveFactorE f table with
    | .ok (.factor f2) => .ok (.factor (.unary op f2))
    | .ok _ => .err "Expected a Factor after resolving unary expression"
    | other => other
  | .exp e, table => do
    let resolved ← resolveExp e table
    pure (.factor (.exp resolved))
end

/-- Rust `resolve_declaration`: reject redeclaration, allocate the unique
name, extend the table, then resolve the initializer under the extended
table. -/
def resolveDeclaration (name : String) (init : Option Exp) (table : SymbolTable) :
    PRes (Declaration × SymbolTable) :=
  if (table.lookup name).isSome then
    .err ("Variable '" ++ name ++ "' already declared")
  else
    let uniqueId := makeTemporary name table
    let table2 : SymbolTable := (name, uniqueId) :: table
    match init with
    | some initExp => do
      let resolvedInit ← resolveExp initExp table2
      pure (.decl uniqueId (some resolvedInit), table2)
    | none => .ok (.decl uniqueId none, table2)

/-- Rust `resolve_statement`. -/
def resolveStatement (st : Statement) (table : SymbolTable) : PRes Statement :=
  match st with
  | .ret e => do
    let resolved ← resolveExp e table
    pure (.ret resolved)
  | .expression e => do
    let resolved ← resolveExp e table
    pure (.expression resolved)
  | .null => .ok .null

/-- Rust `resolve_block_item`. -/
def resolveBlockItem (item : BlockItem) (table : SymbolTable) :
    PRes (BlockItem × SymbolTable) :=
  match item with
  | .d (.decl name init) => do
    let r ← resolveDeclaration name init table
    pure (.d r.1, r.2)
  | .s st => do
    let resolved ← resolveStatement st table
    pure (.s resolved, table)

/-- Item-list fold of Rust `resolve_function_declaration`. -/
def resolveItems : List BlockItem → SymbolTable → PRes (List BlockItem)
  | [], _ => .ok []
  | item :: items, table => do
    let r ← resolveBlockItem item table
    let rest ← resolveItems items r.2
    pure (r.1 :: rest)

/-- Rust `resolve_function_declaration`: fresh symbol table per function. -/
def resolveFunctionDeclaration (fd : FunctionDeclaration) : PRes FunctionDeclaration :=
  match fd with
  | .function name items => do
    let resolvedItems ← resolveItems items []
    pure (.function name resolvedItems)

/-- Rust `resolve_program`. -/
def resolveProgram (p : Program) : PRes Program :=
  match p with
  | .program fd => do
    let resolvedFd ← resolveFunctionDeclaration fd
    pure (.program resolvedFd)

/-- Rust `parse_and_resolve_program` (the public entry point the driver
does not call). -/
def parseAndResolveProgram (fuel : Nat) (tokens : List Token) : PRes Program := do
  let parsed ← parseProgram fuel tokens
  resolveProgram parsed

/-! ### Three-address code (src/tac.rs) -/

namespace tac

/-- Unary operators of `tac::UnaryOperator`. -/
inductive UnaryOperator where
  | negate
  | complement
  | logicalNot
  deriving DecidableEq

/-- Binary operators of `tac::BinaryOperator`. -/
inductive BinaryOperator where
  | add
  | subtract
  | multiply
  | divide
  | modulo
  | ampersand
  | pipe
  | caret
  | shiftLeft
  | shiftRight
  | logicalAnd
  | logicalOr
  | equal
  | notEqual
  | greaterThan
  | greaterThanOrEqual
  | lessThan
  | lessThanOrEqual
  | assign
  deriving DecidableEq

/-- TAC values (`tac::Val`). -/
inductive Val where
  | identifier (s : String)
  | constant (v : Int)
  deriving DecidableEq

/-- TAC instructions (`tac::Instruction`); `ret` is the source `Return`
variant. -/
inductive Instruction where
  | ret (v : Val)
  | unary (operator : UnaryOperator) (src dst : Val)
  | binary (operator : BinaryOperator) (src1 src2 dst : Val)
  | copy (src dst : Val)
  | jump (label : Val)
  | jumpIfZero (src : Val) (label : Val)
  | jumpIfNotZero (src : Val) (label : Val)
  | label (l : Val)
  deriving DecidableEq

/-- A TAC function (`tac::Function`). -/
structure Function where
  identifier : String
  body : List Instruction
  deriving DecidableEq

/-- A TAC program (`tac::Program`). -/
structure Program where
  function : Function
  deriving DecidableEq

/-- The `From<&UnaryOp>` conversion of src/tac.rs. -/
def UnaryOperator.ofUnaryOp : UnaryOp → UnaryOperator
  | .negation => .negate
  | .complement => .complement
  | .logicalNot => .logicalNot

/-- The `From<&BinaryOp>` conversion of src/tac.rs. -/
def BinaryOperator.ofBinaryOp : BinaryOp → BinaryOperator
  | .add => .add
  | .subtract => .subtract
  | .multiply => .multiply
  | .divide => .divide
  | .modulo => .modulo
  | .bitwiseAnd => .ampersand
  | .bitwiseOr => .pipe
  | .bitwiseXor => .caret
  | .leftShift => .shiftLeft
  | .rightShift => .shiftRight
  | .logicalAnd => .logicalAnd
  | .logicalOr => .logicalOr
  | .equal => .equal
  | .notEqual => .notEqual
  | .greaterThan => .greaterThan
  | .greaterThanOrEqual => .greaterThanOrEqual
  | .lessThan => .lessThan
  | .lessThanOrEqual => .lessThanOrEqual
  | .assignment => .assign

/-- The `Display` rendering of a `tac::Val` (used for labels in the
assembly lowering). -/
def Val.render : Val → String
  | .constant n => intToString n
  | .identifier s => s

/-- The `matches!(instruction, Instruction::Return(_))` test of the `main`
epilogue. -/
def Instruction.isReturn : Instruction → Bool
  | .ret _ => true
  | _ => false

end tac

/-- Name of the temporary allocated at instruction-list length `n`
(`format!("tmp.\x7b\x7d", body.len())`). -/
def tmpName (n : Nat) : String := "tmp." ++ natToString n

/-- Name of the label allocated at instruction-list length `n`
(`format!("label.\x7b\x7d", body.len())`). -/
def labelName (n : Nat) : String := "label." ++ natToString n

mutual
/-- Rust `Factor::generate_tac`: the mutable `body: &mut Vec<Instruction>`
becomes an explicit instruction-list argument; the returned pair is the
yielded `Val` and the extended list. -/
def Factor.generateTac : Factor → List tac.Instruction → tac.Val × List tac.Instruction
  | .int value, body => (.constant value, body)
  | .unary op f, body =>
    let r := Factor.generateTac f body
    let dst : tac.Val := .identifier (tmpName r.2.length)
    (dst, r.2 ++ [.unary (tac.UnaryOperator.ofUnaryOp op) r.1 dst])
  | .exp e, body => Exp.generateTac e body

/-- Rust `Exp::generate_tac`. -/
def Exp.generateTac : Exp → List tac.Instruction → tac.Val × List tac.Instruction
  | .factor f, body => Factor.generateTac f body
  | .binary l op r, body =>
    if op = BinaryOp.logicalAnd then
      let lr := Exp.generateTac l body
      let dst : tac.Val := .identifier (tmpName lr.2.length)
      let lbl : tac.Val := .identifier (labelName lr.2.length)
      let boolDst : tac.Val := .identifier (tmpName (lr.2.length + 1))
      let body2 := lr.2 ++
        [.binary .notEqual lr.1 (.constant 0) boolDst,
         .copy boolDst dst,
         .jumpIfZero boolDst lbl]
      let rr := Exp.generateTac r body2
      (dst, rr.2 ++ [.binary .notEqual rr.1 (.constant 0) dst, .label lbl])
    else if op = BinaryOp.logicalOr then
      let lr := Exp.generateTac l body
      let dst : tac.Val := .identifier (tmpName lr.2.length)
      let lbl : tac.Val := .identifier (labelName lr.2.length)
      let boolDst : tac.Val := .identifier (tmpName (lr.2.length + 1))
      let body2 := lr.2 ++
        [.binary .notEqual lr.1 (.constant 0) boolDst,
         .copy boolDst dst,
         .jumpIfNotZero boolDst lbl]
      let rr := Exp.generateTac r body2
      (dst, rr.2 ++ [.binary .notEqual rr.1 (.constant 0) dst, .label lbl])
    else
      let lr := Exp.generateTac l body
      let rr := Exp.generateTac r lr.2
      let dst : tac.Val := .identifier (tmpName rr.2.length)
      (dst, rr.2 ++ [.binary (tac.BinaryOperator.ofBinaryOp op) lr.1 rr.1 dst])
  | .var identifier, body => (.identifier identifier, body)
  | .assignment l r, body =>
    let rhs := Exp.generateTac r body
    let lhs := Exp.generateTac l rhs.2
    (lhs.1, lhs.2 ++ [.copy rhs.1 lhs.1])
end

/-- Rust `Declaration::generate_tac`: an initializer lowers like an
assignment to the declared name; the returned `Option<Val>` is kept for
fidelity though every caller discards it. -/
def Declaration.generateTac : Declaration → List tac.Instruction →
    Option tac.Val × List tac.Instruction
  | .decl identifier (some initExp), body =>
    let r := Exp.generateTac initExp body
    let dst : tac.Val := .identifier identifier
    (some dst, r.2 ++ [.copy r.1 dst])
  | .decl _ none, body => (none, body)

/-- Rust `Statement::generate_tac`. -/
def Statement.generateTac : Statement → List tac.Instruction → List tac.Instruction
  | .ret e, body =>
    let r := Exp.generateTac e body
    r.2 ++ [.ret r.1]
  | .expression e, body => (Exp.generateTac e body).2
  | .null, body => body

/-- Rust `BlockItem::generate_tac`. -/
def BlockItem.generateTac : BlockItem → List tac.Instruction → List tac.Instruction
  | .s st, body => Statement.generateTac st body
  | .d declaration, body => (Declaration.generateTac declaration body).2

/-- The item fold of `FunctionDeclaration::generate_tac`. -/
def itemsGenerateTac (items : List BlockItem) (body : List tac.Instruction) :
    List tac.Instruction :=
  items.foldl (fun b item => BlockItem.generateTac item b) body

/-- Rust `FunctionDeclaration::generate_tac`, including the implicit
`return 0` epilogue for a `main` body with no `Return`. -/
def FunctionDeclaration.generateTac : FunctionDeclaration → tac.Function
  | .function identifier items =>
    let body := itemsGenerateTac items []
    let body :=
      if identifier = "main" ∧ ¬ body.any tac.Instruction.isReturn then
        body ++ [.ret (.constant 0)]
      else body
    { identifier := identifier, body := body }

/-- Rust `Program::generate_tac` / the free function `tac::generate_tac`. -/
def generateTac : Program → tac.Program
  | .program fd => { function := FunctionDeclaration.generateTac fd }

/-! ### Ghost accounting of generated names

`Exp.generateTac` names temporaries `tmp.N` and labels `label.N` from the
length of the instruction list at the allocation site.  The definitions
below recompute, from the start length alone, how many instructions each
node emits (`tacCount`) and which names it allocates, as tagged
`GName` values (`allocs`).  They are specification artifacts for the
freshness claim; the lemmas `Factor.generateTac_length_factor`,
`Exp.generateTac_ids_subset` and their companions tie them back to the
real lowering. -/

/-- A compiler-generated name: a temporary or a label with its allocation
index. -/
inductive GName where
  | tmp (n : Nat)
  | lbl (n : Nat)
  deriving DecidableEq

/-- The string a generated name renders to in the emitted TAC. -/
def GName.render : GName → String
  | .tmp n => tmpName n
  | .lbl n => labelName n

/-- Allocation index of a generated name. -/
def GName.idx : GName → Nat
  | .tmp n => n
  | .lbl n => n

mutual
/-- Number of TAC instructions `Factor.generateTac` appends. -/
def Factor.tacCount : Factor → Nat
  | .int _ => 0
  | .unary _ f => Factor.tacCount f + 1
  | .exp e => Exp.tacCount e

/-- Number of TAC instructions `Exp.generateTac` appends. -/
def Exp.tacCount : Exp → Nat
  | .var _ => 0
  | .factor f => Factor.tacCount f
  | .binary l op r =>
    if op = BinaryOp.logicalAnd ∨ op = BinaryOp.logicalOr then
      Exp.tacCount l + 3 + Exp.tacCount r + 2
    else
      Exp.tacCount l + Exp.tacCount r + 1
  | .assignment l r => Exp.tacCount r + Exp.tacCount l + 1
end

mutual
/-- Names `Factor.generateTac` allocates when lowering starts at
instruction-list length `n`, in allocation order. -/
def Factor.allocs : Factor → Nat → List GName
  | .int _, _ => []
  | .unary _ f, n => Factor.allocs f n ++ [.tmp (n + Factor.tacCount f)]
  | .exp e, n => Exp.allocs e n

/-- Names `Exp.generateTac` allocates when lowering starts at
instruction-list length `n`, in allocation order. -/
def Exp.allocs : Exp → Nat → List GName
  | .var _, _ => []
  | .factor f, n => Factor.allocs f n
  | .binary l op r, n =>
    if op = BinaryOp.logicalAnd ∨ op = BinaryOp.logicalOr then
      Exp.allocs l n ++
        [.tmp (n + Exp.tacCount l), .lbl (n + Exp.tacCount l),
         .tmp (n + Exp.tacCount l + 1)] ++
        Exp.allocs r (n + Exp.tacCount l + 3)
    else
      Exp.allocs l n ++ Exp.allocs r (n + Exp.tacCount l) ++
        [.tmp (n + Exp.tacCount l + Exp.tacCount r)]
  | .assignment l r, n =>
    Exp.allocs r n ++ Exp.allocs l (n + Exp.tacCount r)
end

/-- Instructions a declaration emits. -/
def Declaration.tacCount : Declaration → Nat
  | .decl _ (some e) => Exp.tacCount e + 1
  | .decl _ none => 0

/-- Names a declaration allocates from start length `n`. -/
def Declaration.allocs : Declaration → Nat → List GName
  | .decl _ (some e), n => Exp.allocs e n
  | .decl _ none, _ => []

/-- Instructions a statement emits. -/
def Statement.tacCount : Statement → Nat
  | .ret e => Exp.tacCount e + 1
  | .expression e => Exp.tacCount e
  | .null => 0

/-- Names a statement allocates from start length `n`. -/
def Statement.allocs : Statement → Nat → List GName
  | .ret e, n => Exp.allocs e n
  | .expression e, n => Exp.allocs e n
  | .null, _ => []

/-- Instructions a block item emits. -/
def BlockItem.tacCount : BlockItem → Nat
  | .d declaration => declaration.tacCount
  | .s st => st.tacCount

/-- Names a block item allocates from start length `n`. -/
def BlockItem.allocs : BlockItem → Nat → List GName
  | .d declaration, n => declaration.allocs n
  | .s st, n => st.allocs n

/-- Instructions an item list emits. -/
def itemsTacCount : List BlockItem → Nat
  | [] => 0
  | item :: items => item.tacCount + itemsTacCount items

/-- Names an item list allocates from start length `n`. -/
def itemsAllocs : List BlockItem → Nat → List GName
  | [], _ => []
  | item :: items, n => item.allocs n ++ itemsAllocs items (n + item.tacCount)

/-- Names allocated while lowering a whole function body (the body starts
empty, so accounting starts at length 0). -/
def FunctionDeclaration.allocs : FunctionDeclaration → List GName
  | .function _ items => itemsAllocs items 0

/-! ### User variable names and identifier collection -/

mutual
/-- Variable and declaration names occurring in a factor. -/
def Factor.vars : Factor → List String
  | .int _ => []
  | .unary _ f => Factor.vars f
  | .exp e => Exp.vars e

/-- Variable and declaration names occurring in an expression. -/
def Exp.vars : Exp → List String
  | .var name => [name]
  | .factor f => Factor.vars f
  | .binary l _ r => Exp.vars l ++ Exp.vars r
  | .assignment l r => Exp.vars l ++ Exp.vars r
end

/-- Variable and declaration names occurring in a declaration. -/
def Declaration.vars : Declaration → List String
  | .decl name (some e) => name :: Exp.vars e
  | .decl name none => [name]

/-- Variable and declaration names occurring in a statement. -/
def Statement.vars : Statement → List String
  | .ret e => Exp.vars e
  | .expression e => Exp.vars e
  | .null => []

/-- Variable and declaration names occurring in a block item. -/
def BlockItem.vars : BlockItem → List String
  | .d declaration => declaration.vars
  | .s st => st.vars

/-- Variable and declaration names occurring in an item list. -/
def itemsVars (items : List BlockItem) : List String :=
  (items.map BlockItem.vars).flatten

/-- Variable and declaration names of a function. -/
def FunctionDeclaration.vars : FunctionDeclaration → List String
  | .function _ items => itemsVars items

/-- Identifier strings occurring in a TAC value. -/
def tac.Val.ids : tac.Val → List String
  | .identifier s => [s]
  | .constant _ => []

/-- Identifier strings occurring in a TAC instruction (operands,
destinations and labels alike). -/
def tac.Instruction.ids : tac.Instruction → List String
  | .ret v => v.ids
  | .unary _ src dst => src.ids ++ dst.ids
  | .binary _ src1 src2 dst => src1.ids ++ src2.ids ++ dst.ids
  | .copy src dst => src.ids ++ dst.ids
  | .jump l => l.ids
  | .jumpIfZero src l => src.ids ++ l.ids
  | .jumpIfNotZero src l => src.ids ++ l.ids
  | .label l => l.ids

/-- Identifier strings occurring in a TAC instruction list. -/
def idsOf (body : List tac.Instruction) : List String :=
  (body.map tac.Instruction.ids).flatten

/-! ### Assembly backend (src/assembly.rs)

In the committed repository every line of src/assembly.rs is commented
out (and `main.rs` calls `assembly::generate_assembly_AST` /
`applyFixes`, which therefore do not resolve).  The definitions below
embed that commented-out implementation — the text the specification and
the claims were written from. -/

namespace assembly

/-- Condition codes (`assembly::CodeGen`). -/
inductive CodeGen where
  | e
  | ne
  | g
  | ge
  | l
  | le
  deriving DecidableEq

/-- Registers (`assembly::Reg`). -/
inductive Reg where
  | ax
  | dx
  | r10
  | r11
  deriving DecidableEq

/-- Operands (`assembly::Operand`). -/
inductive Operand where
  | imm (v : Int)
  | register (r : Reg)
  | pseudo (s : String)
  | stack (offset : Int)
  deriving DecidableEq

/-- Unary operators (`assembly::UnaryOperator`). -/
inductive UnaryOperator where
  | neg
  | notOp
  | logicalNot
  deriving DecidableEq

/-- Binary operators (`assembly::BinaryOperator`). -/
inductive BinaryOperator where
  | add
  | sub
  | mul
  | ampersand
  | pipe
  | caret
  | shiftLeft
  | shiftRight
  deriving DecidableEq

/-- Instructions (`assembly::Instruction`); `ret` is the source `Ret`. -/
inductive Instruction where
  | mov (src dst : Operand)
  | unary (op : UnaryOperator) (dst : Operand)
  | binary (op : BinaryOperator) (src dst : Operand)
  | cmp (src dst : Operand)
  | idiv (src : Operand)
  | cdq
  | jmp (lbl : String)
  | jmpCC (c : CodeGen) (lbl : String)
  | setCC (c : CodeGen) (dst : Operand)
  | label (lbl : String)
  | allocateStack (n : Int)
  | ret
  deriving DecidableEq

/-- An assembly function (`assembly::Function`). -/
structure Function where
  name : String
  instructions : List Instruction
  deriving DecidableEq

/-- An assembly program (`assembly::Program`). -/
structure Program where
  function : Function
  deriving DecidableEq

/-- The `From<TacUnaryOperator>` conversion. -/
def UnaryOperator.ofTac : tac.UnaryOperator → UnaryOperator
  | .negate => .neg
  | .complement => .notOp
  | .logicalNot => .logicalNot

/-- The `From<Val>` conversion. -/
def Operand.ofVal : tac.Val → Operand
  | .constant v => .imm v
  | .identifier id => .pseudo id

/-- The arithmetic-operator match inside the generic `Binary` arm of
`to_assembly_instructions`; `none` is the `panic!("Invalid operator")`
default. -/
def BinaryOperator.ofTacArith : tac.BinaryOperator → Option BinaryOperator
  | .add => some .add
  | .subtract => some .sub
  | .multiply => some .mul
  | .ampersand => some .ampersand
  | .pipe => some .pipe
  | .caret => some .caret
  | .shiftLeft => some .shiftLeft
  | .shiftRight => some .shiftRight
  | _ => none

/-- Rust `TacInstruction::to_assembly_instructions`; `panic` models the
`panic!("Invalid operator")` reachable when a logical or assignment
operator survives to this stage. -/
def toAssemblyInstructions : tac.Instruction → PRes (List Instruction)
  | .ret v => .ok [.mov (.ofVal v) (.register .ax), .ret]
  | .unary op src dst =>
    match op with
    | .logicalNot =>
      .ok [.cmp (.imm 0) (.ofVal src), .mov (.imm 0) (.ofVal dst),
           .setCC .e (.ofVal dst)]
    | _ =>
      .ok [.mov (.ofVal src) (.ofVal dst),
           .unary (UnaryOperator.ofTac op) (.ofVal dst)]
  | .binary op src1 src2 dst =>
    match op with
    | .divide =>
      .ok [.mov (.ofVal src1) (.register .ax), .cdq, .idiv (.ofVal src2),
           .mov (.register .ax) (.ofVal dst)]
    | .modulo =>
      .ok [.mov (.ofVal src1) (.register .ax), .cdq, .idiv (.ofVal src2),
           .mov (.register .dx) (.ofVal dst)]
    | .greaterThan =>
      .ok [.cmp (.ofVal src2) (.ofVal src1), .mov (.imm 0) (.ofVal dst),
           .setCC .g (.ofVal dst)]
    | .greaterThanOrEqual =>
      .ok [.cmp (.ofVal src2) (.ofVal src1), .mov (.imm 0) (.ofVal dst),
           .setCC .ge (.ofVal dst)]
    | .lessThan =>
      .ok [.cmp (.ofVal src2) (.ofVal src1), .mov (.imm 0) (.ofVal dst),
           .setCC .l (.ofVal dst)]
    | .lessThanOrEqual =>
      .ok [.cmp (.ofVal src2) (.ofVal src1), .mov (.imm 0) (.ofVal dst),
           .setCC .le (.ofVal dst)]
    | .equal =>
      .ok [.cmp (.ofVal src2) (.ofVal src1), .mov (.imm 0) (.ofVal dst),
           .setCC .e (.ofVal dst)]
    | .notEqual =>
      .ok [.cmp (.ofVal src2) (.ofVal src1), .mov (.imm 0) (.ofVal dst),
           .setCC .ne (.ofVal dst)]
    | _ =>
      match BinaryOperator.ofTacArith op with
      | some b => .ok [.mov (.ofVal src1) (.ofVal dst), .binary b (.ofVal src2) (.ofVal dst)]
      | none => .panic
  | .jumpIfZero src lbl =>
    .ok [.cmp (.ofVal src) (.imm 0), .jmpCC .e lbl.render]
  | .jumpIfNotZero src lbl =>
    .ok [.cmp (.ofVal src) (.imm 0), .jmpCC .ne lbl.render]
  | .jump lbl => .ok [.jmp lbl.render]
  | .label lbl => .ok [.label lbl.render]
  | .copy src dst => .ok [.mov (.ofVal src) (.ofVal dst)]

/-- The `flat_map` of `TacFunction::to_assembly_function`. -/
def instrsToAssembly : List tac.Instruction → PRes (List Instruction)
  | [] => .ok []
  | i :: is => do
    let l ← toAssemblyInstructions i
    let rest ← instrsToAssembly is
    pure (l ++ rest)

/-- Rust `TacFunction::to_assembly_function`. -/
def toAssemblyFunction (f : tac.Function) : PRes Function := do
  let instructions ← instrsToAssembly f.body
  pure { name := f.identifier, instructions := instructions }

/-- Rust `TacProgram::to_assembly_program` / `generate_assembly_ast`. -/
def generateAssemblyAst (p : tac.Program) : PRes Program := do
  let f ← toAssemblyFunction p.function
  pure { function := f }

/-- State of pseudo-register resolution: the `pseudo_map` association list
and the running offset counter (which starts at `-4`). -/
abbrev PseudoState := List (String × Operand) × Int

/-- Rust `Function::replace_operand`: pseudo operands are looked up in the
map or assigned the next free stack slot (`entry().or_insert_with`);
everything else passes through. -/
def replaceOperand (o : Operand) (st : PseudoState) : Operand × PseudoState :=
  match o with
  | .pseudo id =>
    match st.1.lookup id with
    | some op => (op, st)
    | none => (.stack st.2, ((id, Operand.stack st.2) :: st.1, st.2 - 4))
  | _ => (o, st)

/-- Per-instruction body of Rust `Function::replace_pseudo`. -/
def replacePseudoInstr (i : Instruction) (st : PseudoState) : Instruction × PseudoState :=
  match i with
  | .mov src dst =>
    let rs := replaceOperand src st
    let rd := replaceOperand dst rs.2
    (.mov rs.1 rd.1, rd.2)
  | .unary op dst =>
    let rd := replaceOperand dst st
    (.unary op rd.1, rd.2)
  | .binary op src dst =>
    let rs := replaceOperand src st
    let rd := replaceOperand dst rs.2
    (.binary op rs.1 rd.1, rd.2)
  | .idiv src =>
    let rs := replaceOperand src st
    (.idiv rs.1, rs.2)
  | .setCC c dst =>
    let rd := replaceOperand dst st
    (.setCC c rd.1, rd.2)
  | .cmp src dst =>
    let rs := replaceOperand src st
    let rd := replaceOperand dst rs.2
    (.cmp rs.1 rd.1, rd.2)
  | other => (other, st)

/-- Instruction fold of Rust `Function::replace_pseudo`. -/
def replacePseudoLoop : List Instruction → PseudoState → List Instruction →
    List Instruction × Int
  | [], st, acc => (acc, -st.2)
  | i :: is, st, acc =>
    let r := replacePseudoInstr i st
    replacePseudoLoop is r.2 (acc ++ [r.1])

/-- Rust `Function::replace_pseudo`: rewrites the instructions and returns
the negated final counter as the stack size. -/
def Function.replacePseudo (f : Function) : Function × Int :=
  let r := replacePseudoLoop f.instructions ([], -4) []
  ({ f with instructions := r.1 }, r.2)

/-- Per-instruction rewrite of Rust `Function::fix_mov` (the operand-form
legalizer), with the source match arms in order. -/
def fixInstr : Instruction → List Instruction
  | .mov src dst =>
    match src, dst with
    | .stack a, .stack b =>
      [.mov (.stack a) (.register .r10), .mov (.register .r10) (.stack b)]
    | _, _ => [.mov src dst]
  | .binary op src dst =>
    match op, src, dst with
    | .add, .stack a, .stack b =>
      [.mov (.stack a) (.register .r10), .binary .add (.register .r10) (.stack b)]
    | .sub, .stack a, .stack b =>
      [.mov (.stack a) (.register .r10), .binary .sub (.register .r10) (.stack b)]
    | .mul, .imm v, .stack b =>
      [.mov (.stack b) (.register .r11), .binary .mul (.imm v) (.register .r11),
       .mov (.register .r11) (.stack b)]
    | .mul, .stack a, .stack b =>
      [.mov (.stack a) (.register .r10), .mov (.stack b) (.register .r11),
       .binary .mul (.register .r10) (.register .r11), .mov (.register .r11) (.stack b)]
    | .ampersand, .stack a, .stack b =>
      [.mov (.stack a) (.register .r10), .binary .ampersand (.register .r10) (.stack b)]
    | .pipe, .stack a, .stack b =>
      [.mov (.stack a) (.register .r10), .binary .pipe (.register .r10) (.stack b)]
    | .caret, .stack a, .stack b =>
      [.mov (.stack a) (.register .r10), .binary .caret (.register .r10) (.stack b)]
    | .shiftLeft, .stack a, .stack b =>
      [.mov (.stack a) (.register .r10), .binary .shiftLeft (.register .r10) (.stack b)]
    | .shiftRight, .stack a, .stack b =>
      [.mov (.stack a) (.register .r10), .binary .shiftRight (.register .r10) (.stack b)]
    | _, _, _ => [.binary op src dst]
  | .idiv src =>
    match src with
    | .imm v => [.mov (.imm v) (.register .r10), .idiv (.register .r10)]
    | _ => [.idiv src]
  | .cmp src dst =>
    match src, dst with
    | .stack a, .stack b =>
      [.mov (.stack a) (.register .r10), .cmp (.register .r10) (.stack b)]
    | _, .imm v =>
      [.mov (.imm v) (.register .r11), .cmp src (.register .r11)]
    | _, _ => [.cmp src dst]
  | other => [other]

/-- Rust `Function::fix_mov`: legalize every instruction, then prepend
`AllocateStack(stack_size)`. -/
def Function.fixMov (f : Function) (stackSize : Int) : Function :=
  { f with instructions :=
      .allocateStack stackSize :: (f.instructions.map fixInstr).flatten }

/-- Rust `Program::apply_fixes` (called `applyFixes` by the driver). -/
def Program.applyFixes (p : Program) : Program :=
  let r := p.function.replacePseudo
  { function := r.1.fixMov r.2 }

/-- Stack-operand test. -/
def Operand.isStack : Operand → Bool
  | .stack _ => true
  | _ => false

/-- Immediate-operand test. -/
def Operand.isImm : Operand → Bool
  | .imm _ => true
  | _ => false

/-- The operand-form constraints of the legalization claim: no
`Mov`/`Add`/`Sub`/`And`/`Or`/`Xor` with two stack operands, no `Mul` with a
stack destination, no `Idiv` of an immediate, no `Cmp` with an immediate
destination. -/
def legalInstr : Instruction → Bool
  | .mov src dst => !(src.isStack && dst.isStack)
  | .binary op src dst =>
    match op with
    | .add | .sub | .ampersand | .pipe | .caret => !(src.isStack && dst.isStack)
    | .mul => !dst.isStack
    | _ => true
  | .idiv src => !src.isImm
  | .cmp _ dst => !dst.isImm
  | _ => true

/-- Readiness shape for the legalizer: every `Mul` source operand is an
immediate or a stack slot (which is what pseudo-resolved builder output
looks like); `fixInstr` legalizes such instructions completely. -/
def mulSrcReady : Instruction → Bool
  | .binary .mul (.imm _) _ => true
  | .binary .mul (.stack _) _ => true
  | .binary .mul _ _ => false
  | _ => true

/-- Builder-output shape: every `Mul` source operand comes from a TAC
`Val`, hence is an immediate or a pseudo. -/
def mulSrcFromVal : Instruction → Bool
  | .binary .mul (.imm _) _ => true
  | .binary .mul (.pseudo _) _ => true
  | .binary .mul _ _ => false
  | _ => true

/-- Invariant of the pseudo map: every stored replacement is a stack
slot (the map is only ever extended with `Operand::Stack`). -/
def stackOnly (m : List (String × Operand)) : Prop :=
  ∀ p ∈ m, ∃ k, p.2 = Operand.stack k

end assembly

/-! ### Driver composition (src/main.rs)

`main` lexes, filters comments, and calls `parser::parse_program` — not
`parse_and_resolve_program`, so the resolver never runs on the driver
path — and then feeds the parse result straight to `tac::generate_tac`.
(As committed the crate does not even build: `parse_program` is a private
item that lib.rs re-exports, and `main.rs` calls assembly functions that
are commented out.) -/

/-- The lex-filter-parse prefix of `main`. -/
def driverParse (fuel : Nat) (src : String) : PRes Program := do
  let ts ← lexAll src
  parseProgram fuel (removeComments ts)

/-- The driver path up to TAC generation: note the absence of
`resolve_program`. -/
def driverTac (fuel : Nat) (src : String) : PRes tac.Program := do
  let p ← driverParse fuel src
  pure (generateTac p)

/-! ## Theorems

First the helper lemmas: injectivity of the decimal rendering and of
`GName.render`, the bookkeeping lemmas tying `tacCount` / `allocs` to the
real TAC lowering, the resolver identity-table invariant, and the
legalizer shape lemmas.  The per-claim theorems follow at the end. -/

theorem fromDecDigits_decDigits :
    ∀ fuel n, n ≤ fuel → fromDecDigits (decDigits fuel n) = n := by
  intro fuel
  induction fuel with
  | zero =>
    intro n hn
    interval_cases n
    rfl
  | succ f ih =>
    intro n hn
    by_cases h0 : n = 0
    · subst h0; rfl
    · have hdiv : n / 10 ≤ f := by
        have : n / 10 < n := Nat.div_lt_self (Nat.pos_of_ne_zero h0) (by norm_num)
        omega
      simp only [decDigits, h0, if_false, fromDecDigits, List.foldr_cons]
      have := ih (n / 10) hdiv
      simp only [fromDecDigits] at this
      rw [this]
      omega

theorem decDigits_lt_ten :
    ∀ fuel n d, d ∈ decDigits fuel n → d < 10 := by
  intro fuel
  induction fuel with
  | zero => intro n d hd; simp [decDigits] at hd
  | succ f ih =>
    intro n d hd
    by_cases h0 : n = 0
    · simp [decDigits, h0] at hd
    · simp only [decDigits, h0, if_false, List.mem_cons] at hd
      rcases hd with h | h
      · subst h; exact Nat.mod_lt _ (by norm_num)
      · exact ih _ _ h

theorem digitChar_inj_lt :
    ∀ a < 10, ∀ b < 10, Nat.digitChar a = Nat.digitChar b → a = b := by decide

theorem map_digitChar_inj :
    ∀ l1 l2 : List Nat, (∀ d ∈ l1, d < 10) → (∀ d ∈ l2, d < 10) →
      l1.map Nat.digitChar = l2.map Nat.digitChar → l1 = l2 := by
  intro l1
  induction l1 with
  | nil =>
    intro l2 _ _ h
    cases l2 with
    | nil => rfl
    | cons b bs => simp at h
  | cons a as ih =>
    intro l2 h1 h2 h
    cases l2 with
    | nil => simp at h
    | cons b bs =>
      simp only [List.map_cons, List.cons.injEq] at h
      have ha : a = b :=
        digitChar_inj_lt a (h1 a (by simp)) b (h2 b (by simp)) h.1
      have hrest : as = bs :=
        ih bs (fun d hd => h1 d (by simp [hd])) (fun d hd => h2 d (by simp [hd])) h.2
      rw [ha, hrest]

theorem string_mk_inj (l1 l2 : List Char) (h : String.mk l1 = String.mk l2) : l1 = l2 := by
  injection h

theorem natToString_inj : ∀ m n : Nat, natToString m = natToString n → m = n := by
  have key : ∀ m n : Nat, m ≠ 0 → n ≠ 0 → natToString m = natToString n → m = n := by
    intro m n hm hn h
    simp only [natToString, hm, hn, if_false] at h
    have hdata := string_mk_inj _ _ h
    have hmap : (decDigits m m).reverse.map Nat.digitChar =
        (decDigits n n).reverse.map Nat.digitChar := hdata
    have hrev : (decDigits m m).reverse = (decDigits n n).reverse :=
      map_digitChar_inj _ _
        (fun d hd => decDigits_lt_ten m m d (List.mem_reverse.mp hd))
        (fun d hd => decDigits_lt_ten n n d (List.mem_reverse.mp hd)) hmap
    have hdig : decDigits m m = decDigits n n := List.reverse_injective hrev
    have h1 := fromDecDigits_decDigits m m (le_refl m)
    have h2 := fromDecDigits_decDigits n n (le_refl n)
    rw [← h1, ← h2, hdig]
  have zero_case : ∀ n : Nat, n ≠ 0 → natToString 0 ≠ natToString n := by
    intro n hn h
    simp only [natToString, hn, if_false, if_pos rfl] at h
    have hdata := string_mk_inj _ _ h
    have hmap : ([0] : List Nat).map Nat.digitChar =
        (decDigits n n).reverse.map Nat.digitChar := hdata
    have : ([0] : List Nat) = (decDigits n n).reverse :=
      map_digitChar_inj _ _ (by simp)
        (fun d hd => decDigits_lt_ten n n d (List.mem_reverse.mp hd)) hmap
    have hdig : decDigits n n = [0] := by
      have := congrArg List.reverse this
      simpa using this.symm
    have := fromDecDigits_decDigits n n (le_refl n)
    rw [hdig] at this
    simp [fromDecDigits] at this
    exact hn this.symm
  intro m n h
  by_cases hm : m = 0 <;> by_cases hn : n = 0
  · omega
  · exact absurd (hm ▸ h) (zero_case n hn)
  · exact absurd (hn ▸ h.symm) (zero_case m hm)
  · exact key m n hm hn h

theorem string_data_inject (s1 s2 : String) (h : s1.data = s2.data) : s1 = s2 :=
  congrArg String.mk h

theorem tmpName_data (n : Nat) :
    (tmpName n).data = 't' :: 'm' :: 'p' :: '.' :: (natToString n).data := rfl

theorem labelName_data (n : Nat) :
    (labelName n).data = 'l' :: 'a' :: 'b' :: 'e' :: 'l' :: '.' :: (natToString n).data := rfl

theorem GName.render_inj : ∀ g1 g2 : GName, g1.render = g2.render → g1 = g2 := by
  intro g1 g2 h
  cases g1 with
  | tmp m =>
    cases g2 with
    | tmp n =>
      have hdata := congrArg String.data h
      simp only [GName.render] at hdata
      rw [tmpName_data, tmpName_data] at hdata
      simp only [List.cons.injEq, true_and] at hdata
      have : natToString m = natToString n :=
        string_data_inject _ _ hdata
      rw [natToString_inj m n this]
    | lbl n =>
      have hdata := congrArg String.data h
      simp only [GName.render] at hdata
      rw [tmpName_data, labelName_data] at hdata
      simp at hdata
  | lbl m =>
    cases g2 with
    | tmp n =>
      have hdata := congrArg String.data h
      simp only [GName.render] at hdata
      rw [labelName_data, tmpName_data] at hdata
      simp at hdata
    | lbl n =>
      have hdata := congrArg String.data h
      simp only [GName.render] at hdata
      rw [labelName_data, labelName_data] at hdata
      simp only [List.cons.injEq, true_and] at hdata
      have : natToString m = natToString n :=
        string_data_inject _ _ hdata
      rw [natToString_inj m n this]

theorem GName.render_has_dot (g : GName) : '.' ∈ g.render.data := by
  cases g with
  | tmp n => rw [GName.render, tmpName_data]; simp
  | lbl n => rw [GName.render, labelName_data]; simp

theorem GName.render_ne_dotfree (g : GName) (v : String)
    (hv : '.' ∈ v.data → False) : g.render ≠ v := by
  intro h
  exact hv (h ▸ GName.render_has_dot g)

theorem Exp.generateTac_and (l r : Exp) (body : List tac.Instruction) :
    Exp.generateTac (.binary l BinaryOp.logicalAnd r) body =
      ((.identifier (tmpName (Exp.generateTac l body).2.length)),
        (Exp.generateTac r ((Exp.generateTac l body).2 ++
          [.binary .notEqual (Exp.generateTac l body).1 (.constant 0)
             (.identifier (tmpName ((Exp.generateTac l body).2.length + 1))),
           .copy (.identifier (tmpName ((Exp.generateTac l body).2.length + 1)))
             (.identifier (tmpName (Exp.generateTac l body).2.length)),
           .jumpIfZero (.identifier (tmpName ((Exp.generateTac l body).2.length + 1)))
             (.identifier (labelName (Exp.generateTac l body).2.length))])).2 ++
          [.binary .notEqual
             (Exp.generateTac r ((Exp.generateTac l body).2 ++
               [.binary .notEqual (Exp.generateTac l body).1 (.constant 0)
                  (.identifier (tmpName ((Exp.generateTac l body).2.length + 1))),
                .copy (.identifier (tmpName ((Exp.generateTac l body).2.length + 1)))
                  (.identifier (tmpName (Exp.generateTac l body).2.length)),
                .jumpIfZero (.identifier (tmpName ((Exp.generateTac l body).2.length + 1)))
                  (.identifier (labelName (Exp.generateTac l body).2.length))])).1
             (.constant 0) (.identifier (tmpName (Exp.generateTac l body).2.length)),
           .label (.identifier (labelName (Exp.generateTac l body).2.length))]) := rfl

theorem Exp.generateTac_or (l r : Exp) (body : List tac.Instruction) :
    Exp.generateTac (.binary l BinaryOp.logicalOr r) body =
      ((.identifier (tmpName (Exp.generateTac l body).2.length)),
        (Exp.generateTac r ((Exp.generateTac l body).2 ++
          [.binary .notEqual (Exp.generateTac l body).1 (.constant 0)
             (.identifier (tmpName ((Exp.generateTac l body).2.length + 1))),
           .copy (.identifier (tmpName ((Exp.generateTac l body).2.length + 1)))
             (.identifier (tmpName (Exp.generateTac l body).2.length)),
           .jumpIfNotZero (.identifier (tmpName ((Exp.generateTac l body).2.length + 1)))
             (.identifier (labelName (Exp.generateTac l body).2.length))])).2 ++
          [.binary .notEqual
             (Exp.generateTac r ((Exp.generateTac l body).2 ++
               [.binary .notEqual (Exp.generateTac l body).1 (.constant 0)
                  (.identifier (tmpName ((Exp.generateTac l body).2.length + 1))),
                .copy (.identifier (tmpName ((Exp.generateTac l body).2.length + 1)))
                  (.identifier (tmpName (Exp.generateTac l body).2.length)),
                .jumpIfNotZero (.identifier (tmpName ((Exp.generateTac l body).2.length + 1)))
                  (.identifier (labelName (Exp.generateTac l body).2.length))])).1
             (.constant 0) (.identifier (tmpName (Exp.generateTac l body).2.length)),
           .label (.identifier (labelName (Exp.generateTac l body).2.length))]) := rfl

theorem Exp.generateTac_binary_other (l r : Exp) (op : BinaryOp)
    (hAnd : op ≠ BinaryOp.logicalAnd) (hOr : op ≠ BinaryOp.logicalOr)
    (body : List tac.Instruction) :
    Exp.generateTac (.binary l op r) body =
      ((.identifier (tmpName (Exp.generateTac r (Exp.generateTac l body).2).2.length)),
        (Exp.generateTac r (Exp.generateTac l body).2).2 ++
          [.binary (tac.BinaryOperator.ofBinaryOp op) (Exp.generateTac l body).1
             (Exp.generateTac r (Exp.generateTac l body).2).1
             (.identifier (tmpName (Exp.generateTac r (Exp.generateTac l body).2).2.length))]) := by
  simp [Exp.generateTac, hAnd, hOr]

theorem Exp.tacCount_logical (l r : Exp) (op : BinaryOp)
    (h : op = BinaryOp.logicalAnd ∨ op = BinaryOp.logicalOr) :
    Exp.tacCount (.binary l op r) = l.tacCount + 3 + r.tacCount + 2 := by
  simp [Exp.tacCount, h]

theorem Exp.tacCount_binary_other (l r : Exp) (op : BinaryOp)
    (hAnd : op ≠ BinaryOp.logicalAnd) (hOr : op ≠ BinaryOp.logicalOr) :
    Exp.tacCount (.binary l op r) = l.tacCount + r.tacCount + 1 := by
  simp [Exp.tacCount, hAnd, hOr]

mutual
theorem Factor.generateTac_length_factor (f : Factor) (body : List tac.Instruction) :
    (Factor.generateTac f body).2.length = body.length + f.tacCount := by
  cases f with
  | int v => simp [Factor.generateTac, Factor.tacCount]
  | unary op f =>
    simp only [Factor.generateTac, Factor.tacCount, List.length_append]
    rw [Factor.generateTac_length_factor f body]
    simp only [List.length_cons, List.length_nil]
    omega
  | exp e =>
    simp only [Factor.generateTac, Factor.tacCount]
    exact Exp.generateTac_length_exp e body

theorem Exp.generateTac_length_exp (e : Exp) (body : List tac.Instruction) :
    (Exp.generateTac e body).2.length = body.length + e.tacCount := by
  cases e with
  | var name => simp [Exp.generateTac, Exp.tacCount]
  | factor f =>
    simp only [Exp.generateTac, Exp.tacCount]
    exact Factor.generateTac_length_factor f body
  | binary l op r =>
    by_cases hAnd : op = BinaryOp.logicalAnd
    · subst hAnd
      rw [Exp.generateTac_and, Exp.tacCount_logical l r _ (Or.inl rfl)]
      simp only [List.length_append, List.length_cons, List.length_nil]
      rw [Exp.generateTac_length_exp r, List.length_append, Exp.generateTac_length_exp l]
      simp only [List.length_cons, List.length_nil]
      omega
    · by_cases hOr : op = BinaryOp.logicalOr
      · subst hOr
        rw [Exp.generateTac_or, Exp.tacCount_logical l r _ (Or.inr rfl)]
        simp only [List.length_append, List.length_cons, List.length_nil]
        rw [Exp.generateTac_length_exp r, List.length_append, Exp.generateTac_length_exp l]
        simp only [List.length_cons, List.length_nil]
        omega
      · rw [Exp.generateTac_binary_other l r op hAnd hOr,
          Exp.tacCount_binary_other l r op hAnd hOr]
        simp only [List.length_append, List.length_cons, List.length_nil]
        rw [Exp.generateTac_length_exp r, Exp.generateTac_length_exp l]
        omega
  | assignment l r =>
    simp only [Exp.generateTac, Exp.tacCount, List.length_append]
    rw [Exp.generateTac_length_exp l, Exp.generateTac_length_exp r]
    simp only [List.length_cons, List.length_nil]
    omega
end

mutual
theorem Factor.generateTac_suffix_factor (f : Factor) (body : List tac.Instruction) :
    ∃ d, (Factor.generateTac f body).2 = body ++ d := by
  cases f with
  | int v => exact ⟨[], by simp [Factor.generateTac]⟩
  | unary op f =>
    obtain ⟨d, hd⟩ := Factor.generateTac_suffix_factor f body
    simp only [Factor.generateTac]
    rw [hd]
    exact ⟨_, by rw [List.append_assoc]⟩
  | exp e =>
    simpa only [Factor.generateTac] using Exp.generateTac_suffix_exp e body

theorem Exp.generateTac_suffix_exp (e : Exp) (body : List tac.Instruction) :
    ∃ d, (Exp.generateTac e body).2 = body ++ d := by
  cases e with
  | var name => exact ⟨[], by simp [Exp.generateTac]⟩
  | factor f =>
    simpa only [Exp.generateTac] using Factor.generateTac_suffix_factor f body
  | binary l op r =>
    by_cases hAnd : op = BinaryOp.logicalAnd
    · subst hAnd
      rw [Exp.generateTac_and]
      obtain ⟨dl, hdl⟩ := Exp.generateTac_suffix_exp l body
      obtain ⟨dr, hdr⟩ := Exp.generateTac_suffix_exp r ((Exp.generateTac l body).2 ++ _)
      rw [hdr, hdl]
      exact ⟨_, by simp only [List.append_assoc]; rfl⟩
    · by_cases hOr : op = BinaryOp.logicalOr
      · subst hOr
        rw [Exp.generateTac_or]
        obtain ⟨dl, hdl⟩ := Exp.generateTac_suffix_exp l body
        obtain ⟨dr, hdr⟩ := Exp.generateTac_suffix_exp r ((Exp.generateTac l body).2 ++ _)
        rw [hdr, hdl]
        exact ⟨_, by simp only [List.append_assoc]; rfl⟩
      · rw [Exp.generateTac_binary_other l r op hAnd hOr]
        obtain ⟨dl, hdl⟩ := Exp.generateTac_suffix_exp l body
        obtain ⟨dr, hdr⟩ := Exp.generateTac_suffix_exp r (Exp.generateTac l body).2
        rw [hdr, hdl]
        exact ⟨_, by simp only [List.append_assoc]; rfl⟩
  | assignment l r =>
    simp only [Exp.generateTac]
    obtain ⟨dr, hdr⟩ := Exp.generateTac_suffix_exp r body
    obtain ⟨dl, hdl⟩ := Exp.generateTac_suffix_exp l (Exp.generateTac r body).2
    rw [hdl, hdr]
    exact ⟨_, by simp only [List.append_assoc]; rfl⟩
end

theorem Exp.allocs_logical (l r : Exp) (op : BinaryOp) (n : Nat)
    (h : op = BinaryOp.logicalAnd ∨ op = BinaryOp.logicalOr) :
    Exp.allocs (.binary l op r) n =
      Exp.allocs l n ++
        [.tmp (n + Exp.tacCount l), .lbl (n + Exp.tacCount l),
         .tmp (n + Exp.tacCount l + 1)] ++
        Exp.allocs r (n + Exp.tacCount l + 3) := by
  simp [Exp.allocs, h]

theorem Exp.allocs_binary_other (l r : Exp) (op : BinaryOp) (n : Nat)
    (hAnd : op ≠ BinaryOp.logicalAnd) (hOr : op ≠ BinaryOp.logicalOr) :
    Exp.allocs (.binary l op r) n =
      Exp.allocs l n ++ Exp.allocs r (n + Exp.tacCount l) ++
        [.tmp (n + Exp.tacCount l + Exp.tacCount r)] := by
  simp [Exp.allocs, hAnd, hOr]

mutual
theorem Factor.allocs_bounds_factor (f : Factor) (n : Nat) :
    ∀ g ∈ Factor.allocs f n, n ≤ g.idx ∧ g.idx < n + f.tacCount := by
  cases f with
  | int v => intro g hg; simp [Factor.allocs] at hg
  | unary op f =>
    intro g hg
    simp only [Factor.allocs, List.mem_append, List.mem_singleton] at hg
    rcases hg with hg | hg
    · have := Factor.allocs_bounds_factor f n g hg
      simp only [Factor.tacCount]
      omega
    · subst hg
      simp [GName.idx, Factor.tacCount]
  | exp e =>
    intro g hg
    simp only [Factor.allocs] at hg
    simpa only [Factor.tacCount] using Exp.allocs_bounds_exp e n g hg

theorem Exp.allocs_bounds_exp (e : Exp) (n : Nat) :
    ∀ g ∈ Exp.allocs e n, n ≤ g.idx ∧ g.idx < n + e.tacCount := by
  cases e with
  | var name => intro g hg; simp [Exp.allocs] at hg
  | factor f =>
    intro g hg
    simp only [Exp.allocs] at hg
    simpa only [Exp.tacCount] using Factor.allocs_bounds_factor f n g hg
  | binary l op r =>
    by_cases hLog : op = BinaryOp.logicalAnd ∨ op = BinaryOp.logicalOr
    · intro g hg
      rw [Exp.allocs_logical l r op n hLog] at hg
      rw [Exp.tacCount_logical l r op hLog]
      simp only [List.mem_append, List.mem_cons, List.mem_singleton,
        List.not_mem_nil, or_false] at hg
      rcases hg with (hg | hg) | hg
      · have := Exp.allocs_bounds_exp l n g hg
        omega
      · rcases hg with hg | hg | hg <;> (subst hg; simp [GName.idx]; omega)
      · have := Exp.allocs_bounds_exp r (n + Exp.tacCount l + 3) g hg
        omega
    · push_neg at hLog
      intro g hg
      rw [Exp.allocs_binary_other l r op n hLog.1 hLog.2] at hg
      rw [Exp.tacCount_binary_other l r op hLog.1 hLog.2]
      simp only [List.mem_append, List.mem_singleton] at hg
      rcases hg with (hg | hg) | hg
      · have := Exp.allocs_bounds_exp l n g hg
        omega
      · have := Exp.allocs_bounds_exp r (n + Exp.tacCount l) g hg
        omega
      · subst hg
        simp only [GName.idx]
        omega
  | assignment l r =>
    intro g hg
    simp only [Exp.allocs, List.mem_append] at hg
    simp only [Exp.tacCount]
    rcases hg with hg | hg
    · have := Exp.allocs_bounds_exp r n g hg
      omega
    · have := Exp.allocs_bounds_exp l (n + Exp.tacCount r) g hg
      omega
end

theorem GName.idx_lt_ne {g1 g2 : GName} (h : g1.idx < g2.idx) : g1 ≠ g2 := by
  intro he
  subst he
  omega

mutual
theorem Factor.allocs_nodup_factor (f : Factor) (n : Nat) : (Factor.allocs f n).Nodup := by
  cases f with
  | int v => simp [Factor.allocs]
  | unary op f =>
    simp only [Factor.allocs]
    refine List.Nodup.append (Factor.allocs_nodup_factor f n) (List.nodup_singleton _) ?_
    intro g hg hg2
    simp only [List.mem_singleton] at hg2
    have hb := Factor.allocs_bounds_factor f n g hg
    subst hg2
    simp [GName.idx] at hb
  | exp e =>
    simpa only [Factor.allocs] using Exp.allocs_nodup_exp e n

theorem Exp.allocs_nodup_exp (e : Exp) (n : Nat) : (Exp.allocs e n).Nodup := by
  cases e with
  | var name => simp [Exp.allocs]
  | factor f =>
    simpa only [Exp.allocs] using Factor.allocs_nodup_factor f n
  | binary l op r =>
    by_cases hLog : op = BinaryOp.logicalAnd ∨ op = BinaryOp.logicalOr
    · rw [Exp.allocs_logical l r op n hLog]
      have hmid : ([GName.tmp (n + Exp.tacCount l), GName.lbl (n + Exp.tacCount l),
          GName.tmp (n + Exp.tacCount l + 1)]).Nodup := by
        refine List.nodup_cons.mpr ⟨?_, List.nodup_cons.mpr ⟨?_, List.nodup_singleton _⟩⟩
        · simp only [List.mem_cons, List.mem_singleton, List.not_mem_nil, or_false]
          rintro (h | h)
          · exact GName.noConfusion h
          · have := congrArg GName.idx h
            simp only [GName.idx] at this
            omega
        · simp only [List.mem_singleton]
          intro h
          exact GName.noConfusion h
      refine List.Nodup.append (List.Nodup.append (Exp.allocs_nodup_exp l n) hmid ?_) (Exp.allocs_nodup_exp r _) ?_
      · intro g hg hg2
        have hb := Exp.allocs_bounds_exp l n g hg
        simp only [List.mem_cons, List.mem_singleton, List.not_mem_nil, or_false] at hg2
        rcases hg2 with h | h | h <;> (subst h; simp only [GName.idx] at hb; omega)
      · intro g hg hg2
        have hb2 := Exp.allocs_bounds_exp r (n + Exp.tacCount l + 3) g hg2
        simp only [List.mem_append, List.mem_cons, List.mem_singleton, List.not_mem_nil,
          or_false] at hg
        rcases hg with hg | hg | hg | hg
        · have hb := Exp.allocs_bounds_exp l n g hg
          omega
        · subst hg; simp only [GName.idx] at hb2; omega
        · subst hg; simp only [GName.idx] at hb2; omega
        · subst hg; simp only [GName.idx] at hb2; omega
    · push_neg at hLog
      rw [Exp.allocs_binary_other l r op n hLog.1 hLog.2]
      refine List.Nodup.append
        (List.Nodup.append (Exp.allocs_nodup_exp l n) (Exp.allocs_nodup_exp r _) ?_)
        (List.nodup_singleton _) ?_
      · intro g hg hg2
        have hb := Exp.allocs_bounds_exp l n g hg
        have hb2 := Exp.allocs_bounds_exp r (n + Exp.tacCount l) g hg2
        omega
      · intro g hg hg2
        simp only [List.mem_singleton] at hg2
        simp only [List.mem_append] at hg
        subst hg2
        rcases hg with hg | hg
        · have hb := Exp.allocs_bounds_exp l n _ hg
          simp only [GName.idx] at hb
          omega
        · have hb := Exp.allocs_bounds_exp r (n + Exp.tacCount l) _ hg
          simp only [GName.idx] at hb
          omega
  | assignment l r =>
    simp only [Exp.allocs]
    refine List.Nodup.append (Exp.allocs_nodup_exp r n) (Exp.allocs_nodup_exp l _) ?_
    intro g hg hg2
    have hb := Exp.allocs_bounds_exp r n g hg
    have hb2 := Exp.allocs_bounds_exp l (n + Exp.tacCount r) g hg2
    omega
end

theorem Declaration.generateTac_length_decl (d : Declaration) (body : List tac.Instruction) :
    (Declaration.generateTac d body).2.length = body.length + d.tacCount := by
  cases d with
  | decl name init =>
    cases init with
    | some e =>
      simp only [Declaration.generateTac, Declaration.tacCount, List.length_append]
      rw [Exp.generateTac_length_exp e body]
      simp only [List.length_cons, List.length_nil]
      omega
    | none => simp [Declaration.generateTac, Declaration.tacCount]

theorem Statement.generateTac_length_stmt (st : Statement) (body : List tac.Instruction) :
    (Statement.generateTac st body).length = body.length + st.tacCount := by
  cases st with
  | ret e =>
    simp only [Statement.generateTac, Statement.tacCount, List.length_append]
    rw [Exp.generateTac_length_exp e body]
    simp only [List.length_cons, List.length_nil]
    omega
  | expression e =>
    simp only [Statement.generateTac, Statement.tacCount]
    exact Exp.generateTac_length_exp e body
  | null => simp [Statement.generateTac, Statement.tacCount]

theorem BlockItem.generateTac_length_item (item : BlockItem) (body : List tac.Instruction) :
    (BlockItem.generateTac item body).length = body.length + item.tacCount := by
  cases item with
  | d declaration =>
    simp only [BlockItem.generateTac, BlockItem.tacCount]
    exact Declaration.generateTac_length_decl declaration body
  | s st =>
    simp only [BlockItem.generateTac, BlockItem.tacCount]
    exact Statement.generateTac_length_stmt st body

theorem BlockItem.allocs_bounds_item (item : BlockItem) (n : Nat) :
    ∀ g ∈ BlockItem.allocs item n, n ≤ g.idx ∧ g.idx < n + item.tacCount := by
  cases item with
  | d declaration =>
    cases declaration with
    | decl name init =>
      cases init with
      | some e =>
        intro g hg
        simp only [BlockItem.allocs, Declaration.allocs] at hg
        have := Exp.allocs_bounds_exp e n g hg
        simp only [BlockItem.tacCount, Declaration.tacCount]
        omega
      | none => intro g hg; simp [BlockItem.allocs, Declaration.allocs] at hg
  | s st =>
    cases st with
    | ret e =>
      intro g hg
      simp only [BlockItem.allocs, Statement.allocs] at hg
      have := Exp.allocs_bounds_exp e n g hg
      simp only [BlockItem.tacCount, Statement.tacCount]
      omega
    | expression e =>
      intro g hg
      simp only [BlockItem.allocs, Statement.allocs] at hg
      have := Exp.allocs_bounds_exp e n g hg
      simp only [BlockItem.tacCount, Statement.tacCount]
      omega
    | null => intro g hg; simp [BlockItem.allocs, Statement.allocs] at hg

theorem BlockItem.allocs_nodup_item (item : BlockItem) (n : Nat) :
    (BlockItem.allocs item n).Nodup := by
  cases item with
  | d declaration =>
    cases declaration with
    | decl name init =>
      cases init with
      | some e => simpa only [BlockItem.allocs, Declaration.allocs] using Exp.allocs_nodup_exp e n
      | none => simp [BlockItem.allocs, Declaration.allocs]
  | s st =>
    cases st with
    | ret e => simpa only [BlockItem.allocs, Statement.allocs] using Exp.allocs_nodup_exp e n
    | expression e => simpa only [BlockItem.allocs, Statement.allocs] using Exp.allocs_nodup_exp e n
    | null => simp [BlockItem.allocs, Statement.allocs]

theorem itemsAllocs_bounds (items : List BlockItem) (n : Nat) :
    ∀ g ∈ itemsAllocs items n, n ≤ g.idx ∧ g.idx < n + itemsTacCount items := by
  induction items generalizing n with
  | nil => intro g hg; simp [itemsAllocs] at hg
  | cons item items ih =>
    intro g hg
    simp only [itemsAllocs, List.mem_append] at hg
    simp only [itemsTacCount]
    rcases hg with hg | hg
    · have := BlockItem.allocs_bounds_item item n g hg
      omega
    · have := ih (n + item.tacCount) g hg
      omega

theorem itemsAllocs_nodup (items : List BlockItem) (n : Nat) :
    (itemsAllocs items n).Nodup := by
  induction items generalizing n with
  | nil => simp [itemsAllocs]
  | cons item items ih =>
    simp only [itemsAllocs]
    refine List.Nodup.append (BlockItem.allocs_nodup_item item n) (ih (n + item.tacCount)) ?_
    intro g hg hg2
    have hb := BlockItem.allocs_bounds_item item n g hg
    have hb2 := itemsAllocs_bounds items (n + item.tacCount) g hg2
    omega

theorem FunctionDeclaration.allocs_nodup_fn (fd : FunctionDeclaration) :
    fd.allocs.Nodup := by
  cases fd with
  | function name items => exact itemsAllocs_nodup items 0

theorem itemsGenerateTac_length (items : List BlockItem) (body : List tac.Instruction) :
    (itemsGenerateTac items body).length = body.length + itemsTacCount items := by
  induction items generalizing body with
  | nil => simp [itemsGenerateTac, itemsTacCount]
  | cons item items ih =>
    simp only [itemsGenerateTac, List.foldl_cons, itemsTacCount]
    have := ih (BlockItem.generateTac item body)
    simp only [itemsGenerateTac] at this
    rw [this, BlockItem.generateTac_length_item]
    omega

theorem idsOf_append (a b : List tac.Instruction) :
    idsOf (a ++ b) = idsOf a ++ idsOf b := by
  simp [idsOf]

mutual
theorem Factor.generateTac_ids_factor (f : Factor) (body : List tac.Instruction) :
    (∀ s ∈ (Factor.generateTac f body).1.ids,
        s ∈ f.vars ∨ s ∈ (Factor.allocs f body.length).map GName.render) ∧
    (∀ s ∈ idsOf (Factor.generateTac f body).2,
        s ∈ idsOf body ∨ s ∈ f.vars ∨ s ∈ (Factor.allocs f body.length).map GName.render) := by
  cases f with
  | int v =>
    constructor
    · intro s hs; simp [Factor.generateTac, tac.Val.ids] at hs
    · intro s hs; simp only [Factor.generateTac] at hs; exact Or.inl hs
  | unary op f =>
    have ihf := Factor.generateTac_ids_factor f body
    have hlen := Factor.generateTac_length_factor f body
    constructor
    · intro s hs
      simp only [Factor.generateTac, tac.Val.ids, List.mem_singleton] at hs
      subst hs
      right
      simp only [Factor.allocs, List.map_append, List.mem_append, List.map_cons,
        List.map_nil, List.mem_singleton]
      right
      rw [hlen]
      rfl
    · intro s hs
      simp only [Factor.generateTac] at hs
      rw [idsOf_append] at hs
      simp only [List.mem_append] at hs
      rcases hs with hs | hs
      · rcases (ihf.2 s hs) with h | h | h
        · exact Or.inl h
        · exact Or.inr (Or.inl (by simpa [Factor.vars] using h))
        · refine Or.inr (Or.inr ?_)
          simp only [Factor.allocs, List.map_append, List.mem_append]
          exact Or.inl h
      · simp only [idsOf, List.map_cons, List.map_nil, List.flatten,
          tac.Instruction.ids, List.append_nil, List.mem_append] at hs
        rcases hs with hs | hs
        · rcases (ihf.1 s hs) with h | h
          · exact Or.inr (Or.inl (by simpa [Factor.vars] using h))
          · refine Or.inr (Or.inr ?_)
            simp only [Factor.allocs, List.map_append, List.mem_append]
            exact Or.inl h
        · simp only [tac.Val.ids, List.mem_singleton] at hs
          subst hs
          refine Or.inr (Or.inr ?_)
          simp only [Factor.allocs, List.map_append, List.mem_append, List.map_cons,
            List.map_nil, List.mem_singleton]
          right
          rw [hlen]
          rfl
  | exp e =>
    have ihe := Exp.generateTac_ids_exp e body
    constructor
    · intro s hs
      simp only [Factor.generateTac] at hs
      simpa only [Factor.vars, Factor.allocs] using ihe.1 s hs
    · intro s hs
      simp only [Factor.generateTac] at hs
      simpa only [Factor.vars, Factor.allocs] using ihe.2 s hs

theorem Exp.generateTac_ids_exp (e : Exp) (body : List tac.Instruction) :
    (∀ s ∈ (Exp.generateTac e body).1.ids,
        s ∈ e.vars ∨ s ∈ (Exp.allocs e body.length).map GName.render) ∧
    (∀ s ∈ idsOf (Exp.generateTac e body).2,
        s ∈ idsOf body ∨ s ∈ e.vars ∨ s ∈ (Exp.allocs e body.length).map GName.render) := by
  cases e with
  | var name =>
    constructor
    · intro s hs
      simp only [Exp.generateTac, tac.Val.ids, List.mem_singleton] at hs
      subst hs
      exact Or.inl (by simp [Exp.vars])
    · intro s hs
      simp only [Exp.generateTac] at hs
      exact Or.inl hs
  | factor f =>
    have ihf := Factor.generateTac_ids_factor f body
    constructor
    · intro s hs
      simp only [Exp.generateTac] at hs
      simpa only [Exp.vars, Exp.allocs] using ihf.1 s hs
    · intro s hs
      simp only [Exp.generateTac] at hs
      simpa only [Exp.vars, Exp.allocs] using ihf.2 s hs
  | binary l op r =>
    by_cases hAnd : op = BinaryOp.logicalAnd
    · subst hAnd
      have ihl := Exp.generateTac_ids_exp l body
      have hlenl := Exp.generateTac_length_exp l body
      rw [Exp.generateTac_and, Exp.allocs_logical l r _ body.length (Or.inl rfl), hlenl]
      have ihr := Exp.generateTac_ids_exp r ((Exp.generateTac l body).2 ++
        [.binary .notEqual (Exp.generateTac l body).1 (.constant 0)
           (.identifier (tmpName (body.length + l.tacCount + 1))),
         .copy (.identifier (tmpName (body.length + l.tacCount + 1)))
           (.identifier (tmpName (body.length + l.tacCount))),
         .jumpIfZero (.identifier (tmpName (body.length + l.tacCount + 1)))
           (.identifier (labelName (body.length + l.tacCount)))])
      have hb2len : ((Exp.generateTac l body).2 ++
          [tac.Instruction.binary .notEqual (Exp.generateTac l body).1 (.constant 0)
             (.identifier (tmpName (body.length + l.tacCount + 1))),
           tac.Instruction.copy (.identifier (tmpName (body.length + l.tacCount + 1)))
             (.identifier (tmpName (body.length + l.tacCount))),
           tac.Instruction.jumpIfZero (.identifier (tmpName (body.length + l.tacCount + 1)))
             (.identifier (labelName (body.length + l.tacCount)))]).length =
          body.length + l.tacCount + 3 := by
        rw [List.length_append, hlenl]
        rfl
      rw [hb2len] at ihr
      have hvars : Exp.vars (.binary l BinaryOp.logicalAnd r) = l.vars ++ r.vars := rfl
      have hmemMid : ∀ g : GName,
          g = GName.tmp (body.length + l.tacCount) ∨
          g = GName.lbl (body.length + l.tacCount) ∨
          g = GName.tmp (body.length + l.tacCount + 1) →
          g.render ∈ (Exp.allocs l body.length ++
            [GName.tmp (body.length + Exp.tacCount l), GName.lbl (body.length + Exp.tacCount l),
             GName.tmp (body.length + Exp.tacCount l + 1)] ++
            Exp.allocs r (body.length + Exp.tacCount l + 3)).map GName.render := by
        intro g hg
        refine List.mem_map_of_mem GName.render ?_
        simp only [List.mem_append, List.mem_cons, List.mem_singleton]
        rcases hg with h | h | h <;> subst h <;> simp
      have hmem_mid : ∀ s, s ∈ idsOf
          [tac.Instruction.binary .notEqual (Exp.generateTac l body).1 (.constant 0)
             (.identifier (tmpName (body.length + l.tacCount + 1))),
           tac.Instruction.copy (.identifier (tmpName (body.length + l.tacCount + 1)))
             (.identifier (tmpName (body.length + l.tacCount))),
           tac.Instruction.jumpIfZero (.identifier (tmpName (body.length + l.tacCount + 1)))
             (.identifier (labelName (body.length + l.tacCount)))] →
          s ∈ (Exp.generateTac l body).1.ids ∨ s = tmpName (body.length + l.tacCount + 1) ∨
          s = tmpName (body.length + l.tacCount) ∨ s = labelName (body.length + l.tacCount) := by
        intro s hs
        simp only [idsOf, List.map_cons, List.map_nil, List.flatten, tac.Instruction.ids,
          tac.Val.ids, List.append_nil, List.nil_append, List.mem_append, List.mem_cons,
          List.mem_singleton, List.not_mem_nil, or_false] at hs
        tauto
      have hmem_tail : ∀ s rr1 , s ∈ idsOf
          [tac.Instruction.binary .notEqual rr1 (.constant 0)
             (.identifier (tmpName (body.length + l.tacCount))),
           tac.Instruction.label (.identifier (labelName (body.length + l.tacCount)))] →
          s ∈ tac.Val.ids rr1 ∨ s = tmpName (body.length + l.tacCount) ∨
          s = labelName (body.length + l.tacCount) := by
        intro s rr1 hs
        simp only [idsOf, List.map_cons, List.map_nil, List.flatten, tac.Instruction.ids,
          tac.Val.ids, List.append_nil, List.nil_append, List.mem_append, List.mem_cons,
          List.mem_singleton, List.not_mem_nil, or_false] at hs
        tauto
      constructor
      · intro s hs
        simp only [tac.Val.ids, List.mem_singleton] at hs
        subst hs
        exact Or.inr (hmemMid (GName.tmp (body.length + l.tacCount)) (Or.inl rfl))
      · intro s hs
        rw [idsOf_append] at hs
        simp only [List.mem_append] at hs
        rcases hs with hs | hs
        · rcases (ihr.2 s hs) with h | h | h
          · rw [idsOf_append] at h
            simp only [List.mem_append] at h
            rcases h with h | h
            · rcases (ihl.2 s h) with h2 | h2 | h2
              · exact Or.inl h2
              · exact Or.inr (Or.inl (by rw [hvars]; simp [h2]))
              · refine Or.inr (Or.inr ?_)
                simp only [List.map_append, List.mem_append]
                exact Or.inl (Or.inl h2)
            · rcases hmem_mid s h with h2 | h2 | h2 | h2
              · rcases (ihl.1 s h2) with h3 | h3
                · exact Or.inr (Or.inl (by rw [hvars]; simp [h3]))
                · refine Or.inr (Or.inr ?_)
                  simp only [List.map_append, List.mem_append]
                  exact Or.inl (Or.inl h3)
              · subst h2
                exact Or.inr (Or.inr (hmemMid _ (Or.inr (Or.inr rfl))))
              · subst h2
                exact Or.inr (Or.inr (hmemMid _ (Or.inl rfl)))
              · subst h2
                exact Or.inr (Or.inr (hmemMid _ (Or.inr (Or.inl rfl))))
          · exact Or.inr (Or.inl (by rw [hvars]; simp [h]))
          · refine Or.inr (Or.inr ?_)
            simp only [List.map_append, List.mem_append]
            exact Or.inr h
        · rcases hmem_tail s _ hs with h | h | h
          · rcases (ihr.1 s h) with h2 | h2
            · exact Or.inr (Or.inl (by rw [hvars]; simp [h2]))
            · refine Or.inr (Or.inr ?_)
              simp only [List.map_append, List.mem_append]
              exact Or.inr h2
          · subst h
            exact Or.inr (Or.inr (hmemMid _ (Or.inl rfl)))
          · subst h
            exact Or.inr (Or.inr (hmemMid _ (Or.inr (Or.inl rfl))))
    · by_cases hOr : op = BinaryOp.logicalOr
      · subst hOr
        have ihl := Exp.generateTac_ids_exp l body
        have hlenl := Exp.generateTac_length_exp l body
        rw [Exp.generateTac_or, Exp.allocs_logical l r _ body.length (Or.inr rfl), hlenl]
        have ihr := Exp.generateTac_ids_exp r ((Exp.generateTac l body).2 ++
          [.binary .notEqual (Exp.generateTac l body).1 (.constant 0)
             (.identifier (tmpName (body.length + l.tacCount + 1))),
           .copy (.identifier (tmpName (body.length + l.tacCount + 1)))
             (.identifier (tmpName (body.length + l.tacCount))),
           .jumpIfNotZero (.identifier (tmpName (body.length + l.tacCount + 1)))
             (.identifier (labelName (body.length + l.tacCount)))])
        have hb2len : ((Exp.generateTac l body).2 ++
            [tac.Instruction.binary .notEqual (Exp.generateTac l body).1 (.constant 0)
               (.identifier (tmpName (body.length + l.tacCount + 1))),
             tac.Instruction.copy (.identifier (tmpName (body.length + l.tacCount + 1)))
               (.identifier (tmpName (body.length + l.tacCount))),
             tac.Instruction.jumpIfNotZero (.identifier (tmpName (body.length + l.tacCount + 1)))
               (.identifier (labelName (body.length + l.tacCount)))]).length =
            body.length + l.tacCount + 3 := by
          rw [List.length_append, hlenl]
          rfl
        rw [hb2len] at ihr
        have hvars : Exp.vars (.binary l BinaryOp.logicalOr r) = l.vars ++ r.vars := rfl
        have hmemMid : ∀ g : GName,
            g = GName.tmp (body.length + l.tacCount) ∨
            g = GName.lbl (body.length + l.tacCount) ∨
            g = GName.tmp (body.length + l.tacCount + 1) →
            g.render ∈ (Exp.allocs l body.length ++
              [GName.tmp (body.length + Exp.tacCount l), GName.lbl (body.length + Exp.tacCount l),
               GName.tmp (body.length + Exp.tacCount l + 1)] ++
              Exp.allocs r (body.length + Exp.tacCount l + 3)).map GName.render := by
          intro g hg
          refine List.mem_map_of_mem GName.render ?_
          simp only [List.mem_append, List.mem_cons, List.mem_singleton]
          rcases hg with h | h | h <;> subst h <;> simp
        have hmem_mid : ∀ s, s ∈ idsOf
            [tac.Instruction.binary .notEqual (Exp.generateTac l body).1 (.constant 0)
               (.identifier (tmpName (body.length + l.tacCount + 1))),
             tac.Instruction.copy (.identifier (tmpName (body.length + l.tacCount + 1)))
               (.identifier (tmpName (body.length + l.tacCount))),
             tac.Instruction.jumpIfNotZero (.identifier (tmpName (body.length + l.tacCount + 1)))
               (.identifier (labelName (body.length + l.tacCount)))] →
            s ∈ (Exp.generateTac l body).1.ids ∨ s = tmpName (body.length + l.tacCount + 1) ∨
            s = tmpName (body.length + l.tacCount) ∨ s = labelName (body.length + l.tacCount) := by
          intro s hs
          simp only [idsOf, List.map_cons, List.map_nil, List.flatten, tac.Instruction.ids,
            tac.Val.ids, List.append_nil, List.nil_append, List.mem_append, List.mem_cons,
            List.mem_singleton, List.not_mem_nil, or_false] at hs
          tauto
        have hmem_tail : ∀ s rr1 , s ∈ idsOf
            [tac.Instruction.binary .notEqual rr1 (.constant 0)
               (.identifier (tmpName (body.length + l.tacCount))),
             tac.Instruction.label (.identifier (labelName (body.length + l.tacCount)))] →
            s ∈ tac.Val.ids rr1 ∨ s = tmpName (body.length + l.tacCount) ∨
            s = labelName (body.length + l.tacCount) := by
          intro s rr1 hs
          simp only [idsOf, List.map_cons, List.map_nil, List.flatten, tac.Instruction.ids,
            tac.Val.ids, List.append_nil, List.nil_append, List.mem_append, List.mem_cons,
            List.mem_singleton, List.not_mem_nil, or_false] at hs
          tauto
        constructor
        · intro s hs
          simp only [tac.Val.ids, List.mem_singleton] at hs
          subst hs
          exact Or.inr (hmemMid (GName.tmp (body.length + l.tacCount)) (Or.inl rfl))
        · intro s hs
          rw [idsOf_append] at hs
          simp only [List.mem_append] at hs
          rcases hs with hs | hs
          · rcases (ihr.2 s hs) with h | h | h
            · rw [idsOf_append] at h
              simp only [List.mem_append] at h
              rcases h with h | h
              · rcases (ihl.2 s h) with h2 | h2 | h2
                · exact Or.inl h2
                · exact Or.inr (Or.inl (by rw [hvars]; simp [h2]))
                · refine Or.inr (Or.inr ?_)
                  simp only [List.map_append, List.mem_append]
                  exact Or.inl (Or.inl h2)
              · rcases hmem_mid s h with h2 | h2 | h2 | h2
                · rcases (ihl.1 s h2) with h3 | h3
                  · exact Or.inr (Or.inl (by rw [hvars]; simp [h3]))
                  · refine Or.inr (Or.inr ?_)
                    simp only [List.map_append, List.mem_append]
                    exact Or.inl (Or.inl h3)
                · subst h2
                  exact Or.inr (Or.inr (hmemMid _ (Or.inr (Or.inr rfl))))
                · subst h2
                  exact Or.inr (Or.inr (hmemMid _ (Or.inl rfl)))
                · subst h2
                  exact Or.inr (Or.inr (hmemMid _ (Or.inr (Or.inl rfl))))
            · exact Or.inr (Or.inl (by rw [hvars]; simp [h]))
            · refine Or.inr (Or.inr ?_)
              simp only [List.map_append, List.mem_append]
              exact Or.inr h
          · rcases hmem_tail s _ hs with h | h | h
            · rcases (ihr.1 s h) with h2 | h2
              · exact Or.inr (Or.inl (by rw [hvars]; simp [h2]))
              · refine Or.inr (Or.inr ?_)
                simp only [List.map_append, List.mem_append]
                exact Or.inr h2
            · subst h
              exact Or.inr (Or.inr (hmemMid _ (Or.inl rfl)))
            · subst h
              exact Or.inr (Or.inr (hmemMid _ (Or.inr (Or.inl rfl))))
      · have ihl := Exp.generateTac_ids_exp l body
        have ihr := Exp.generateTac_ids_exp r (Exp.generateTac l body).2
        have hlenl := Exp.generateTac_length_exp l body
        have hlenr := Exp.generateTac_length_exp r (Exp.generateTac l body).2
        rw [Exp.generateTac_binary_other l r op hAnd hOr,
          Exp.allocs_binary_other l r op body.length hAnd hOr]
        have hvars : Exp.vars (.binary l op r) = l.vars ++ r.vars := rfl
        constructor
        · intro s hs
          simp only [tac.Val.ids, List.mem_singleton] at hs
          subst hs
          right
          simp only [List.map_append, List.mem_append, List.map_cons, List.map_nil,
            List.mem_singleton]
          right
          rw [hlenr, hlenl]
          rfl
        · intro s hs
          rw [idsOf_append] at hs
          simp only [List.mem_append] at hs
          rcases hs with hs | hs
          · rcases (ihr.2 s hs) with h | h | h
            · rcases (ihl.2 s h) with h2 | h2 | h2
              · exact Or.inl h2
              · exact Or.inr (Or.inl (by rw [hvars]; simp [h2]))
              · refine Or.inr (Or.inr ?_)
                simp only [List.map_append, List.mem_append]
                exact Or.inl (Or.inl h2)
            · exact Or.inr (Or.inl (by rw [hvars]; simp [h]))
            · refine Or.inr (Or.inr ?_)
              simp only [List.map_append, List.mem_append]
              rw [hlenl] at h
              exact Or.inl (Or.inr h)
          · simp only [idsOf, List.map_cons, List.map_nil, List.flatten,
              tac.Instruction.ids, List.append_nil, List.mem_append, tac.Val.ids] at hs
            rcases hs with (hs | hs) | hs
            · rcases (ihl.1 s hs) with h | h
              · exact Or.inr (Or.inl (by rw [hvars]; simp [h]))
              · refine Or.inr (Or.inr ?_)
                simp only [List.map_append, List.mem_append]
                exact Or.inl (Or.inl h)
            · rcases (ihr.1 s hs) with h | h
              · exact Or.inr (Or.inl (by rw [hvars]; simp [h]))
              · refine Or.inr (Or.inr ?_)
                simp only [List.map_append, List.mem_append]
                rw [hlenl] at h
                exact Or.inl (Or.inr h)
            · simp only [List.mem_singleton] at hs
              subst hs
              refine Or.inr (Or.inr ?_)
              simp only [List.map_append, List.mem_append, List.map_cons, List.map_nil,
                List.mem_singleton]
              right
              rw [hlenr, hlenl]
              rfl
  | assignment l r =>
    have ihr := Exp.generateTac_ids_exp r body
    have ihl := Exp.generateTac_ids_exp l (Exp.generateTac r body).2
    have hlenr := Exp.generateTac_length_exp r body
    have hvars : Exp.vars (.assignment l r) = l.vars ++ r.vars := rfl
    have hallocs : Exp.allocs (.assignment l r) body.length =
        Exp.allocs r body.length ++ Exp.allocs l (body.length + Exp.tacCount r) := rfl
    simp only [Exp.generateTac]
    constructor
    · intro s hs
      rcases (ihl.1 s hs) with h | h
      · exact Or.inl (by rw [hvars]; simp [h])
      · refine Or.inr ?_
        rw [hallocs]
        simp only [List.map_append, List.mem_append]
        rw [hlenr] at h
        exact Or.inr h
    · intro s hs
      rw [idsOf_append] at hs
      simp only [List.mem_append] at hs
      rcases hs with hs | hs
      · rcases (ihl.2 s hs) with h | h | h
        · rcases (ihr.2 s h) with h2 | h2 | h2
          · exact Or.inl h2
          · exact Or.inr (Or.inl (by rw [hvars]; simp [h2]))
          · refine Or.inr (Or.inr ?_)
            rw [hallocs]
            simp only [List.map_append, List.mem_append]
            exact Or.inl h2
        · exact Or.inr (Or.inl (by rw [hvars]; simp [h]))
        · refine Or.inr (Or.inr ?_)
          rw [hallocs]
          simp only [List.map_append, List.mem_append]
          rw [hlenr] at h
          exact Or.inr h
      · simp only [idsOf, List.map_cons, List.map_nil, List.flatten,
          tac.Instruction.ids, List.append_nil, List.mem_append] at hs
        rcases hs with hs | hs
        · rcases (ihr.1 s hs) with h | h
          · exact Or.inr (Or.inl (by rw [hvars]; simp [h]))
          · refine Or.inr (Or.inr ?_)
            rw [hallocs]
            simp only [List.map_append, List.mem_append]
            exact Or.inl h
        · rcases (ihl.1 s hs) with h | h
          · exact Or.inr (Or.inl (by rw [hvars]; simp [h]))
          · refine Or.inr (Or.inr ?_)
            rw [hallocs]
            simp only [List.map_append, List.mem_append]
            rw [hlenr] at h
            exact Or.inr h
end

theorem Declaration.generateTac_ids_decl (d : Declaration) (body : List tac.Instruction) :
    ∀ s ∈ idsOf (Declaration.generateTac d body).2,
      s ∈ idsOf body ∨ s ∈ d.vars ∨ s ∈ (d.allocs body.length).map GName.render := by
  cases d with
  | decl name init =>
    cases init with
    | some e =>
      intro s hs
      simp only [Declaration.generateTac] at hs
      rw [idsOf_append] at hs
      simp only [List.mem_append] at hs
      have he := Exp.generateTac_ids_exp e body
      rcases hs with hs | hs
      · rcases (he.2 s hs) with h | h | h
        · exact Or.inl h
        · exact Or.inr (Or.inl (by simp [Declaration.vars, h]))
        · exact Or.inr (Or.inr (by simpa [Declaration.allocs] using h))
      · simp only [idsOf, List.map_cons, List.map_nil, List.flatten, tac.Instruction.ids,
          tac.Val.ids, List.append_nil, List.nil_append, List.mem_append, List.mem_cons,
          List.mem_singleton, List.not_mem_nil, or_false] at hs
        rcases hs with hs | hs
        · rcases (he.1 s hs) with h | h
          · exact Or.inr (Or.inl (by simp [Declaration.vars, h]))
          · exact Or.inr (Or.inr (by simpa [Declaration.allocs] using h))
        · subst hs
          exact Or.inr (Or.inl (by simp [Declaration.vars]))
    | none =>
      intro s hs
      simp only [Declaration.generateTac] at hs
      exact Or.inl hs

theorem Statement.generateTac_ids_stmt (st : Statement) (body : List tac.Instruction) :
    ∀ s ∈ idsOf (Statement.generateTac st body),
      s ∈ idsOf body ∨ s ∈ st.vars ∨ s ∈ (st.allocs body.length).map GName.render := by
  cases st with
  | ret e =>
    intro s hs
    simp only [Statement.generateTac] at hs
    rw [idsOf_append] at hs
    simp only [List.mem_append] at hs
    have he := Exp.generateTac_ids_exp e body
    rcases hs with hs | hs
    · rcases (he.2 s hs) with h | h | h
      · exact Or.inl h
      · exact Or.inr (Or.inl (by simpa [Statement.vars] using h))
      · exact Or.inr (Or.inr (by simpa [Statement.allocs] using h))
    · simp only [idsOf, List.map_cons, List.map_nil, List.flatten, tac.Instruction.ids,
        List.append_nil, List.nil_append] at hs
      rcases (he.1 s hs) with h | h
      · exact Or.inr (Or.inl (by simpa [Statement.vars] using h))
      · exact Or.inr (Or.inr (by simpa [Statement.allocs] using h))
  | expression e =>
    intro s hs
    simp only [Statement.generateTac] at hs
    have he := Exp.generateTac_ids_exp e body
    rcases (he.2 s hs) with h | h | h
    · exact Or.inl h
    · exact Or.inr (Or.inl (by simpa [Statement.vars] using h))
    · exact Or.inr (Or.inr (by simpa [Statement.allocs] using h))
  | null =>
    intro s hs
    simp only [Statement.generateTac] at hs
    exact Or.inl hs

theorem BlockItem.generateTac_ids_item (item : BlockItem) (body : List tac.Instruction) :
    ∀ s ∈ idsOf (BlockItem.generateTac item body),
      s ∈ idsOf body ∨ s ∈ item.vars ∨ s ∈ (item.allocs body.length).map GName.render := by
  cases item with
  | d declaration =>
    intro s hs
    simp only [BlockItem.generateTac] at hs
    simpa only [BlockItem.vars, BlockItem.allocs] using
      Declaration.generateTac_ids_decl declaration body s hs
  | s st =>
    intro s hs
    simp only [BlockItem.generateTac] at hs
    simpa only [BlockItem.vars, BlockItem.allocs] using
      Statement.generateTac_ids_stmt st body s hs

theorem itemsGenerateTac_ids (items : List BlockItem) (body : List tac.Instruction) :
    ∀ s ∈ idsOf (itemsGenerateTac items body),
      s ∈ idsOf body ∨ s ∈ itemsVars items ∨
        s ∈ (itemsAllocs items body.length).map GName.render := by
  induction items generalizing body with
  | nil =>
    intro s hs
    simp only [itemsGenerateTac, List.foldl_nil] at hs
    exact Or.inl hs
  | cons item items ih =>
    intro s hs
    simp only [itemsGenerateTac, List.foldl_cons] at hs
    have hstep := ih (BlockItem.generateTac item body) s (by simpa [itemsGenerateTac] using hs)
    have hlen := BlockItem.generateTac_length_item item body
    have hv : itemsVars (item :: items) = item.vars ++ itemsVars items := by
      simp [itemsVars]
    rcases hstep with h | h | h
    · rcases (BlockItem.generateTac_ids_item item body s h) with h2 | h2 | h2
      · exact Or.inl h2
      · exact Or.inr (Or.inl (by rw [hv]; exact List.mem_append_left _ h2))
      · refine Or.inr (Or.inr ?_)
        simp only [itemsAllocs, List.map_append, List.mem_append]
        exact Or.inl h2
    · exact Or.inr (Or.inl (by rw [hv]; exact List.mem_append_right _ h))
    · refine Or.inr (Or.inr ?_)
      simp only [itemsAllocs, List.map_append, List.mem_append]
      rw [hlen] at h
      exact Or.inr h

theorem FunctionDeclaration.generateTac_ids_fn (fd : FunctionDeclaration) :
    ∀ s ∈ idsOf fd.generateTac.body,
      s ∈ fd.vars ∨ s ∈ fd.allocs.map GName.render := by
  cases fd with
  | function name items =>
    intro s hs
    simp only [FunctionDeclaration.generateTac] at hs
    by_cases hif : name = "main" ∧ ¬ (itemsGenerateTac items []).any tac.Instruction.isReturn
    · rw [if_pos hif] at hs
      rw [idsOf_append] at hs
      simp only [List.mem_append] at hs
      rcases hs with hs | hs
      · have := itemsGenerateTac_ids items [] s hs
        simp only [idsOf, List.map_nil, List.flatten, List.not_mem_nil, false_or,
          List.length_nil] at this
        simpa only [FunctionDeclaration.vars, FunctionDeclaration.allocs] using this
      · simp [idsOf, tac.Instruction.ids, tac.Val.ids] at hs
    · rw [if_neg hif] at hs
      have := itemsGenerateTac_ids items [] s hs
      simp only [idsOf, List.map_nil, List.flatten, List.not_mem_nil, false_or,
        List.length_nil] at this
      simpa only [FunctionDeclaration.vars, FunctionDeclaration.allocs] using this

theorem PRes.pure_eq {α : Type} (a : α) : (pure a : PRes α) = .ok a := rfl

theorem PRes.ok_bind {α β : Type} (a : α) (f : α → PRes β) :
    ((PRes.ok a : PRes α) >>= f) = f a := rfl

theorem PRes.err_bind {α β : Type} (s : String) (f : α → PRes β) :
    ((PRes.err s : PRes α) >>= f) = .err s := rfl

theorem PRes.panic_bind {α β : Type} (f : α → PRes β) :
    ((PRes.panic : PRes α) >>= f) = .panic := rfl

theorem PRes.nofuel_bind {α β : Type} (f : α → PRes β) :
    ((PRes.nofuel : PRes α) >>= f) = .nofuel := rfl

/-- Tables whose every binding maps a name to itself. -/
def idTable (t : SymbolTable) : Prop := ∀ p ∈ t, p.2 = p.1

theorem idTable_lookup {t : SymbolTable} (hy : idTable t) {k v : String}
    (h : t.lookup k = some v) : v = k := by
  induction t with
  | nil => simp [List.lookup] at h
  | cons p rest ih =>
    simp only [List.lookup] at h
    by_cases he : k = p.1
    · have : (k == p.1) = true := beq_iff_eq.mpr he
      rw [this] at h
      simp only [Option.some.injEq] at h
      have := hy p (by simp)
      rw [← h, this]
      exact he.symm
    · have : (k == p.1) = false := beq_eq_false_iff_ne.mpr he
      rw [this] at h
      exact ih (fun q hq => hy q (by simp [hq])) h

theorem makeTemporary_not_mem (name : String) (t : SymbolTable)
    (h : t.lookup name = none) : makeTemporary name t = name := by
  simp [makeTemporary, makeTemporaryLoop, h]

mutual
theorem resolveExp_id (e : Exp) (t : SymbolTable) (hy : idTable t) :
    ∀ e2, resolveExp e t = .ok e2 → e2 = e := by
  cases e with
  | var name =>
    intro e2 h
    simp only [resolveExp] at h
    cases hl : t.lookup name with
    | none => rw [hl] at h; exact PRes.noConfusion h
    | some u =>
      rw [hl] at h
      simp only [PRes.ok.injEq] at h
      rw [← h, idTable_lookup hy hl]
  | factor f =>
    intro e2 h
    simp only [resolveExp] at h
    exact resolveFactorE_id f t hy e2 h
  | binary l op r =>
    intro e2 h
    simp only [resolveExp] at h
    cases hl : resolveExp l t with
    | ok a =>
      rw [hl, PRes.ok_bind] at h
      cases hr : resolveExp r t with
      | ok b =>
        rw [hr, PRes.ok_bind, PRes.pure_eq] at h
        simp only [PRes.ok.injEq] at h
        rw [← h, resolveExp_id l t hy a hl, resolveExp_id r t hy b hr]
      | err s => rw [hr, PRes.err_bind] at h; exact PRes.noConfusion h
      | panic => rw [hr, PRes.panic_bind] at h; exact PRes.noConfusion h
      | nofuel => rw [hr, PRes.nofuel_bind] at h; exact PRes.noConfusion h
    | err s => rw [hl, PRes.err_bind] at h; exact PRes.noConfusion h
    | panic => rw [hl, PRes.panic_bind] at h; exact PRes.noConfusion h
    | nofuel => rw [hl, PRes.nofuel_bind] at h; exact PRes.noConfusion h
  | assignment l r =>
    intro e2 h
    simp only [resolveExp] at h
    cases hl : resolveExp l t with
    | ok a =>
      rw [hl, PRes.ok_bind] at h
      cases hr : resolveExp r t with
      | ok b =>
        rw [hr, PRes.ok_bind] at h
        have ha := resolveExp_id l t hy a hl
        have hb := resolveExp_id r t hy b hr
        by_cases hv : isVarTarget a
        · rw [if_pos hv, PRes.pure_eq] at h
          simp only [PRes.ok.injEq] at h
          rw [← h, ha, hb]
        · rw [if_neg hv] at h
          exact PRes.noConfusion h
      | err s => rw [hr, PRes.err_bind] at h; exact PRes.noConfusion h
      | panic => rw [hr, PRes.panic_bind] at h; exact PRes.noConfusion h
      | nofuel => rw [hr, PRes.nofuel_bind] at h; exact PRes.noConfusion h
    | err s => rw [hl, PRes.err_bind] at h; exact PRes.noConfusion h
    | panic => rw [hl, PRes.panic_bind] at h; exact PRes.noConfusion h
    | nofuel => rw [hl, PRes.nofuel_bind] at h; exact PRes.noConfusion h

theorem resolveFactorE_id (f : Factor) (t : SymbolTable) (hy : idTable t) :
    ∀ e2, resolveFactorE f t = .ok e2 → e2 = .factor f := by
  cases f with
  | int v =>
    intro e2 h
    simp only [resolveFactorE, PRes.ok.injEq] at h
    exact h.symm
  | unary op f =>
    intro e2 h
    simp only [resolveFactorE] at h
    cases hf : resolveFactorE f t with
    | ok x =>
      have hx := resolveFactorE_id f t hy x hf
      subst hx
      rw [hf] at h
      simp only [PRes.ok.injEq] at h
      exact h.symm
    | err s => rw [hf] at h; exact PRes.noConfusion h
    | panic => rw [hf] at h; exact PRes.noConfusion h
    | nofuel => rw [hf] at h; exact PRes.noConfusion h
  | exp e =>
    intro e2 h
    simp only [resolveFactorE] at h
    cases he : resolveExp e t with
    | ok x =>
      rw [he, PRes.ok_bind, PRes.pure_eq] at h
      simp only [PRes.ok.injEq] at h
      rw [← h, resolveExp_id e t hy x he]
    | err s => rw [he, PRes.err_bind] at h; exact PRes.noConfusion h
    | panic => rw [he, PRes.panic_bind] at h; exact PRes.noConfusion h
    | nofuel => rw [he, PRes.nofuel_bind] at h; exact PRes.noConfusion h
end

theorem resolveDeclaration_id (name : String) (init : Option Exp) (t : SymbolTable)
    (hy : idTable t) :
    ∀ d2 t2, resolveDeclaration name init t = .ok (d2, t2) →
      d2 = .decl name init ∧ t2 = (name, name) :: t ∧ idTable t2 := by
  intro d2 t2 h
  have hy2 : (t.lookup name).isSome = false → idTable ((name, name) :: t) := by
    intro _ p hp
    rcases List.mem_cons.mp hp with hp | hp
    · rw [hp]
    · exact hy p hp
  cases init with
  | some initExp =>
    simp only [resolveDeclaration] at h
    by_cases hc : (t.lookup name).isSome
    · rw [if_pos hc] at h
      exact PRes.noConfusion h
    · rw [if_neg hc] at h
      have hnone : t.lookup name = none := Option.not_isSome_iff_eq_none.mp hc
      have hy2 := hy2 (by simp [hnone])
      rw [makeTemporary_not_mem name t hnone] at h
      cases he : resolveExp initExp ((name, name) :: t) with
      | ok x =>
        rw [he, PRes.ok_bind, PRes.pure_eq] at h
        simp only [PRes.ok.injEq, Prod.mk.injEq] at h
        have hx := resolveExp_id initExp _ hy2 x he
        subst hx
        exact ⟨h.1.symm, h.2.symm, h.2 ▸ hy2⟩
      | err s => rw [he, PRes.err_bind] at h; exact PRes.noConfusion h
      | panic => rw [he, PRes.panic_bind] at h; exact PRes.noConfusion h
      | nofuel => rw [he, PRes.nofuel_bind] at h; exact PRes.noConfusion h
  | none =>
    simp only [resolveDeclaration] at h
    by_cases hc : (t.lookup name).isSome
    · rw [if_pos hc] at h
      exact PRes.noConfusion h
    · rw [if_neg hc] at h
      have hnone : t.lookup name = none := Option.not_isSome_iff_eq_none.mp hc
      have hy2 := hy2 (by simp [hnone])
      rw [makeTemporary_not_mem name t hnone] at h
      simp only [PRes.ok.injEq, Prod.mk.injEq] at h
      exact ⟨h.1.symm, h.2.symm, h.2 ▸ hy2⟩

theorem resolveStatement_id (st : Statement) (t : SymbolTable) (hy : idTable t) :
    ∀ st2, resolveStatement st t = .ok st2 → st2 = st := by
  cases st with
  | ret e =>
    intro st2 h
    simp only [resolveStatement] at h
    cases he : resolveExp e t with
    | ok x =>
      rw [he, PRes.ok_bind, PRes.pure_eq] at h
      simp only [PRes.ok.injEq] at h
      rw [← h, resolveExp_id e t hy x he]
    | err s => rw [he, PRes.err_bind] at h; exact PRes.noConfusion h
    | panic => rw [he, PRes.panic_bind] at h; exact PRes.noConfusion h
    | nofuel => rw [he, PRes.nofuel_bind] at h; exact PRes.noConfusion h
  | expression e =>
    intro st2 h
    simp only [resolveStatement] at h
    cases he : resolveExp e t with
    | ok x =>
      rw [he, PRes.ok_bind, PRes.pure_eq] at h
      simp only [PRes.ok.injEq] at h
      rw [← h, resolveExp_id e t hy x he]
    | err s => rw [he, PRes.err_bind] at h; exact PRes.noConfusion h
    | panic => rw [he, PRes.panic_bind] at h; exact PRes.noConfusion h
    | nofuel => rw [he, PRes.nofuel_bind] at h; exact PRes.noConfusion h
  | null =>
    intro st2 h
    simp only [resolveStatement, PRes.ok.injEq] at h
    exact h.symm

theorem resolveBlockItem_id (item : BlockItem) (t : SymbolTable) (hy : idTable t) :
    ∀ i2 t2, resolveBlockItem item t = .ok (i2, t2) → i2 = item ∧ idTable t2 := by
  cases item with
  | d declaration =>
    cases declaration with
    | decl name init =>
      intro i2 t2 h
      simp only [resolveBlockItem] at h
      cases hd : resolveDeclaration name init t with
      | ok r =>
        rw [hd, PRes.ok_bind, PRes.pure_eq] at h
        simp only [PRes.ok.injEq, Prod.mk.injEq] at h
        obtain ⟨hdec, htab, hy2⟩ := resolveDeclaration_id name init t hy r.1 r.2 (by rw [hd])
        constructor
        · rw [← h.1, hdec]
        · rw [← h.2]
          exact hy2
      | err s => rw [hd, PRes.err_bind] at h; exact PRes.noConfusion h
      | panic => rw [hd, PRes.panic_bind] at h; exact PRes.noConfusion h
      | nofuel => rw [hd, PRes.nofuel_bind] at h; exact PRes.noConfusion h
  | s st =>
    intro i2 t2 h
    simp only [resolveBlockItem] at h
    cases hs : resolveStatement st t with
    | ok x =>
      rw [hs, PRes.ok_bind, PRes.pure_eq] at h
      simp only [PRes.ok.injEq, Prod.mk.injEq] at h
      constructor
      · rw [← h.1, resolveStatement_id st t hy x hs]
      · rw [← h.2]
        exact hy
    | err s => rw [hs, PRes.err_bind] at h; exact PRes.noConfusion h
    | panic => rw [hs, PRes.panic_bind] at h; exact PRes.noConfusion h
    | nofuel => rw [hs, PRes.nofuel_bind] at h; exact PRes.noConfusion h

theorem resolveItems_id (items : List BlockItem) :
    ∀ t, idTable t → ∀ items2, resolveItems items t = .ok items2 → items2 = items := by
  induction items with
  | nil =>
    intro t hy items2 h
    simp only [resolveItems, PRes.ok.injEq] at h
    exact h.symm
  | cons item items ih =>
    intro t hy items2 h
    simp only [resolveItems] at h
    cases hi : resolveBlockItem item t with
    | ok r =>
      rw [hi, PRes.ok_bind] at h
      cases hrest : resolveItems items r.2 with
      | ok rest =>
        rw [hrest, PRes.ok_bind, PRes.pure_eq] at h
        simp only [PRes.ok.injEq] at h
        obtain ⟨hitem, hy2⟩ := resolveBlockItem_id item t hy r.1 r.2 (by rw [hi])
        rw [← h, hitem, ih r.2 hy2 rest hrest]
      | err s => rw [hrest, PRes.err_bind] at h; exact PRes.noConfusion h
      | panic => rw [hrest, PRes.panic_bind] at h; exact PRes.noConfusion h
      | nofuel => rw [hrest, PRes.nofuel_bind] at h; exact PRes.noConfusion h
    | err s => rw [hi, PRes.err_bind] at h; exact PRes.noConfusion h
    | panic => rw [hi, PRes.panic_bind] at h; exact PRes.noConfusion h
    | nofuel => rw [hi, PRes.nofuel_bind] at h; exact PRes.noConfusion h

theorem resolveProgram_id (p : Program) :
    ∀ p2, resolveProgram p = .ok p2 → p2 = p := by
  cases p with
  | program fd =>
    cases fd with
    | function name items =>
      intro p2 h
      simp only [resolveProgram, resolveFunctionDeclaration] at h
      cases hi : resolveItems items [] with
      | ok items2 =>
        rw [hi, PRes.ok_bind, PRes.pure_eq, PRes.ok_bind, PRes.pure_eq] at h
        simp only [PRes.ok.injEq] at h
        rw [← h, resolveItems_id items [] (by intro p hp; simp at hp) items2 hi]
      | err s => rw [hi, PRes.err_bind] at h; exact PRes.noConfusion h
      | panic => rw [hi, PRes.panic_bind] at h; exact PRes.noConfusion h
      | nofuel => rw [hi, PRes.nofuel_bind] at h; exact PRes.noConfusion h

theorem list_lookup_mem {α β : Type} [BEq α] [LawfulBEq α] {l : List (α × β)} {k : α} {v : β}
    (h : l.lookup k = some v) : (k, v) ∈ l := by
  induction l with
  | nil => simp [List.lookup] at h
  | cons p rest ih =>
    simp only [List.lookup] at h
    by_cases he : (k == p.1) = true
    · rw [he] at h
      simp only [Option.some.injEq] at h
      have hk : k = p.1 := eq_of_beq he
      have hkv : (k, v) = p := by
        rw [hk, ← h]
      rw [hkv]
      exact List.mem_cons_self _ _
    · have he2 : (k == p.1) = false := by simpa using he
      rw [he2] at h
      exact List.mem_cons_of_mem _ (ih h)

theorem toAssembly_mulSrcFromVal (ti : tac.Instruction) (l : List assembly.Instruction)
    (h : assembly.toAssemblyInstructions ti = .ok l) :
    ∀ i ∈ l, assembly.mulSrcFromVal i = true := by
  cases ti with
  | ret v =>
    simp only [assembly.toAssemblyInstructions, PRes.ok.injEq] at h
    subst h
    intro i hi
    fin_cases hi <;> rfl
  | unary op src dst =>
    cases op <;>
      (simp only [assembly.toAssemblyInstructions, PRes.ok.injEq] at h
       subst h
       intro i hi
       fin_cases hi <;> rfl)
  | binary op src1 src2 dst =>
    cases op with
    | divide =>
      simp only [assembly.toAssemblyInstructions, PRes.ok.injEq] at h
      subst h; intro i hi; fin_cases hi <;> rfl
    | modulo =>
      simp only [assembly.toAssemblyInstructions, PRes.ok.injEq] at h
      subst h; intro i hi; fin_cases hi <;> rfl
    | greaterThan =>
      simp only [assembly.toAssemblyInstructions, PRes.ok.injEq] at h
      subst h; intro i hi; fin_cases hi <;> rfl
    | greaterThanOrEqual =>
      simp only [assembly.toAssemblyInstructions, PRes.ok.injEq] at h
      subst h; intro i hi; fin_cases hi <;> rfl
    | lessThan =>
      simp only [assembly.toAssemblyInstructions, PRes.ok.injEq] at h
      subst h; intro i hi; fin_cases hi <;> rfl
    | lessThanOrEqual =>
      simp only [assembly.toAssemblyInstructions, PRes.ok.injEq] at h
      subst h; intro i hi; fin_cases hi <;> rfl
    | equal =>
      simp only [assembly.toAssemblyInstructions, PRes.ok.injEq] at h
      subst h; intro i hi; fin_cases hi <;> rfl
    | notEqual =>
      simp only [assembly.toAssemblyInstructions, PRes.ok.injEq] at h
      subst h; intro i hi; fin_cases hi <;> rfl
    | add =>
      simp only [assembly.toAssemblyInstructions, assembly.BinaryOperator.ofTacArith,
        PRes.ok.injEq] at h
      subst h; intro i hi; fin_cases hi <;> rfl
    | subtract =>
      simp only [assembly.toAssemblyInstructions, assembly.BinaryOperator.ofTacArith,
        PRes.ok.injEq] at h
      subst h; intro i hi; fin_cases hi <;> rfl
    | ampersand =>
      simp only [assembly.toAssemblyInstructions, assembly.BinaryOperator.ofTacArith,
        PRes.ok.injEq] at h
      subst h; intro i hi; fin_cases hi <;> rfl
    | pipe =>
      simp only [assembly.toAssemblyInstructions, assembly.BinaryOperator.ofTacArith,
        PRes.ok.injEq] at h
      subst h; intro i hi; fin_cases hi <;> rfl
    | caret =>
      simp only [assembly.toAssemblyInstructions, assembly.BinaryOperator.ofTacArith,
        PRes.ok.injEq] at h
      subst h; intro i hi; fin_cases hi <;> rfl
    | shiftLeft =>
      simp only [assembly.toAssemblyInstructions, assembly.BinaryOperator.ofTacArith,
        PRes.ok.injEq] at h
      subst h; intro i hi; fin_cases hi <;> rfl
    | shiftRight =>
      simp only [assembly.toAssemblyInstructions, assembly.BinaryOperator.ofTacArith,
        PRes.ok.injEq] at h
      subst h; intro i hi; fin_cases hi <;> rfl
    | multiply =>
      simp only [assembly.toAssemblyInstructions, assembly.BinaryOperator.ofTacArith,
        PRes.ok.injEq] at h
      subst h
      intro i hi
      fin_cases hi
      · rfl
      · cases src2 <;> rfl
    | logicalAnd =>
      simp only [assembly.toAssemblyInstructions, assembly.BinaryOperator.ofTacArith] at h
      exact PRes.noConfusion h
    | logicalOr =>
      simp only [assembly.toAssemblyInstructions, assembly.BinaryOperator.ofTacArith] at h
      exact PRes.noConfusion h
    | assign =>
      simp only [assembly.toAssemblyInstructions, assembly.BinaryOperator.ofTacArith] at h
      exact PRes.noConfusion h
  | copy src dst =>
    simp only [assembly.toAssemblyInstructions, PRes.ok.injEq] at h
    subst h; intro i hi; fin_cases hi <;> rfl
  | jump lbl =>
    simp only [assembly.toAssemblyInstructions, PRes.ok.injEq] at h
    subst h; intro i hi; fin_cases hi <;> rfl
  | jumpIfZero src lbl =>
    simp only [assembly.toAssemblyInstructions, PRes.ok.injEq] at h
    subst h; intro i hi; fin_cases hi <;> rfl
  | jumpIfNotZero src lbl =>
    simp only [assembly.toAssemblyInstructions, PRes.ok.injEq] at h
    subst h; intro i hi; fin_cases hi <;> rfl
  | label lbl =>
    simp only [assembly.toAssemblyInstructions, PRes.ok.injEq] at h
    subst h; intro i hi; fin_cases hi <;> rfl

theorem instrsToAssembly_mulSrcFromVal (body : List tac.Instruction)
    (l : List assembly.Instruction) (h : assembly.instrsToAssembly body = .ok l) :
    ∀ i ∈ l, assembly.mulSrcFromVal i = true := by
  induction body generalizing l with
  | nil =>
    simp only [assembly.instrsToAssembly, PRes.ok.injEq] at h
    subst h
    intro i hi
    simp at hi
  | cons t ts ih =>
    simp only [assembly.instrsToAssembly] at h
    cases ht : assembly.toAssemblyInstructions t with
    | ok lt =>
      rw [ht, PRes.ok_bind] at h
      cases hts : assembly.instrsToAssembly ts with
      | ok lts =>
        rw [hts, PRes.ok_bind, PRes.pure_eq] at h
        simp only [PRes.ok.injEq] at h
        subst h
        intro i hi
        rcases List.mem_append.mp hi with hi | hi
        · exact toAssembly_mulSrcFromVal t lt ht i hi
        · exact ih lts hts i hi
      | err s => rw [hts, PRes.err_bind] at h; exact PRes.noConfusion h
      | panic => rw [hts, PRes.panic_bind] at h; exact PRes.noConfusion h
      | nofuel => rw [hts, PRes.nofuel_bind] at h; exact PRes.noConfusion h
    | err s => rw [ht, PRes.err_bind] at h; exact PRes.noConfusion h
    | panic => rw [ht, PRes.panic_bind] at h; exact PRes.noConfusion h
    | nofuel => rw [ht, PRes.nofuel_bind] at h; exact PRes.noConfusion h

theorem replaceOperand_stackOnly (o : assembly.Operand) (st : assembly.PseudoState)
    (h : assembly.stackOnly st.1) :
    assembly.stackOnly (assembly.replaceOperand o st).2.1 := by
  cases o with
  | pseudo id =>
    simp only [assembly.replaceOperand]
    cases hl : st.1.lookup id with
    | some op => exact h
    | none =>
      intro p hp
      rcases List.mem_cons.mp hp with hp | hp
      · rw [hp]
        exact ⟨st.2, rfl⟩
      · exact h p hp
  | imm v => exact h
  | register r => exact h
  | stack k => exact h

theorem replaceOperand_immOrStack (o : assembly.Operand) (st : assembly.PseudoState)
    (h : assembly.stackOnly st.1)
    (ho : (∃ v, o = .imm v) ∨ (∃ s, o = .pseudo s)) :
    (∃ v, (assembly.replaceOperand o st).1 = .imm v) ∨
    (∃ k, (assembly.replaceOperand o st).1 = .stack k) := by
  rcases ho with ⟨v, hv⟩ | ⟨s, hs⟩
  · subst hv
    exact Or.inl ⟨v, rfl⟩
  · subst hs
    simp only [assembly.replaceOperand]
    cases hl : st.1.lookup s with
    | some op =>
      have := h (s, op) (list_lookup_mem hl)
      obtain ⟨k, hk⟩ := this
      right
      exact ⟨k, hk⟩
    | none => exact Or.inr ⟨st.2, rfl⟩

theorem replacePseudoInstr_ready (i : assembly.Instruction) (st : assembly.PseudoState)
    (h : assembly.stackOnly st.1) (hm : assembly.mulSrcFromVal i = true) :
    assembly.mulSrcReady (assembly.replacePseudoInstr i st).1 = true ∧
    assembly.stackOnly (assembly.replacePseudoInstr i st).2.1 := by
  cases i with
  | mov src dst =>
    refine ⟨rfl, ?_⟩
    simp only [assembly.replacePseudoInstr]
    exact replaceOperand_stackOnly dst _ (replaceOperand_stackOnly src st h)
  | unary op dst =>
    exact ⟨rfl, replaceOperand_stackOnly dst st h⟩
  | binary op src dst =>
    constructor
    · simp only [assembly.replacePseudoInstr]
      cases op with
      | mul =>
        have hsrc : (∃ v, src = assembly.Operand.imm v) ∨
            (∃ s, src = assembly.Operand.pseudo s) := by
          cases src with
          | imm v => exact Or.inl ⟨v, rfl⟩
          | pseudo s => exact Or.inr ⟨s, rfl⟩
          | register r => simp [assembly.mulSrcFromVal] at hm
          | stack k => simp [assembly.mulSrcFromVal] at hm
        rcases replaceOperand_immOrStack src st h hsrc with ⟨v, hv⟩ | ⟨k, hk⟩
        · rw [hv]; rfl
        · rw [hk]; rfl
      | add => rfl
      | sub => rfl
      | ampersand => rfl
      | pipe => rfl
      | caret => rfl
      | shiftLeft => rfl
      | shiftRight => rfl
    · simp only [assembly.replacePseudoInstr]
      exact replaceOperand_stackOnly dst _ (replaceOperand_stackOnly src st h)
  | cmp src dst =>
    refine ⟨rfl, ?_⟩
    simp only [assembly.replacePseudoInstr]
    exact replaceOperand_stackOnly dst _ (replaceOperand_stackOnly src st h)
  | idiv src =>
    exact ⟨rfl, replaceOperand_stackOnly src st h⟩
  | setCC c dst =>
    exact ⟨rfl, replaceOperand_stackOnly dst st h⟩
  | cdq => exact ⟨rfl, h⟩
  | jmp lbl => exact ⟨rfl, h⟩
  | jmpCC c lbl => exact ⟨rfl, h⟩
  | label lbl => exact ⟨rfl, h⟩
  | allocateStack n => exact ⟨rfl, h⟩
  | ret => exact ⟨rfl, h⟩

theorem replacePseudoLoop_ready (instrs : List assembly.Instruction) :
    ∀ (st : assembly.PseudoState) (acc : List assembly.Instruction),
      assembly.stackOnly st.1 →
      (∀ i ∈ instrs, assembly.mulSrcFromVal i = true) →
      (∀ i ∈ acc, assembly.mulSrcReady i = true) →
      ∀ i ∈ (assembly.replacePseudoLoop instrs st acc).1,
        assembly.mulSrcReady i = true := by
  induction instrs with
  | nil =>
    intro st acc hst hin hacc i hi
    simp only [assembly.replacePseudoLoop] at hi
    exact hacc i hi
  | cons t ts ih =>
    intro st acc hst hin hacc i hi
    simp only [assembly.replacePseudoLoop] at hi
    obtain ⟨hr, hso⟩ := replacePseudoInstr_ready t st hst (hin t (by simp))
    refine ih _ _ hso (fun j hj => hin j (by simp [hj])) ?_ i hi
    intro j hj
    rcases List.mem_append.mp hj with hj | hj
    · exact hacc j hj
    · rw [List.mem_singleton.mp hj]
      exact hr

set_option maxHeartbeats 1600000 in
theorem fixInstr_legal (i : assembly.Instruction)
    (h : assembly.mulSrcReady i = true) :
    ∀ j ∈ assembly.fixInstr i, assembly.legalInstr j = true := by
  cases i with
  | mov src dst =>
    cases src <;> cases dst <;>
      simp [assembly.fixInstr, assembly.legalInstr, assembly.Operand.isStack,
        assembly.Operand.isImm, List.forall_mem_cons]
  | binary op src dst =>
    cases op <;> cases src <;> cases dst <;>
      first
        | (simp [assembly.fixInstr, assembly.legalInstr, assembly.Operand.isStack,
             assembly.Operand.isImm, List.forall_mem_cons]
           done)
        | simp [assembly.mulSrcReady] at h
  | cmp src dst =>
    cases src <;> cases dst <;>
      simp [assembly.fixInstr, assembly.legalInstr, assembly.Operand.isStack,
        assembly.Operand.isImm, List.forall_mem_cons]
  | idiv src =>
    cases src <;>
      simp [assembly.fixInstr, assembly.legalInstr, assembly.Operand.isStack,
        assembly.Operand.isImm, List.forall_mem_cons]
  | unary op dst =>
    simp [assembly.fixInstr, assembly.legalInstr, List.forall_mem_cons]
  | setCC c dst =>
    simp [assembly.fixInstr, assembly.legalInstr, List.forall_mem_cons]
  | cdq =>
    simp [assembly.fixInstr, assembly.legalInstr, List.forall_mem_cons]
  | jmp lbl =>
    simp [assembly.fixInstr, assembly.legalInstr, List.forall_mem_cons]
  | jmpCC c lbl =>
    simp [assembly.fixInstr, assembly.legalInstr, List.forall_mem_cons]
  | label lbl =>
    simp [assembly.fixInstr, assembly.legalInstr, List.forall_mem_cons]
  | allocateStack n =>
    simp [assembly.fixInstr, assembly.legalInstr, List.forall_mem_cons]
  | ret =>
    simp [assembly.fixInstr, assembly.legalInstr, List.forall_mem_cons]

theorem applyFixes_legal_of_ready (af : assembly.Function)
    (h : ∀ i ∈ af.instructions, assembly.mulSrcFromVal i = true) :
    ∀ i ∈ (assembly.Program.applyFixes { function := af }).function.instructions,
      assembly.legalInstr i = true := by
  intro i hi
  simp only [assembly.Program.applyFixes, assembly.Function.replacePseudo,
    assembly.Function.fixMov] at hi
  rcases List.mem_cons.mp hi with hi | hi
  · rw [hi]
    rfl
  · rw [List.mem_flatten] at hi
    obtain ⟨l, hl, hil⟩ := hi
    rw [List.mem_map] at hl
    obtain ⟨i2, hi2, hfix⟩ := hl
    have hready : assembly.mulSrcReady i2 = true := by
      refine replacePseudoLoop_ready af.instructions ([], -4) [] ?_ h ?_ i2 hi2
      · intro p hp
        simp at hp
      · intro j hj
        simp at hj
    rw [← hfix] at hil
    exact fixInstr_legal i2 hready i hil

theorem uint32_le_toNat {a b : UInt32} :
    a ≤ b ↔ a.toBitVec.toNat ≤ b.toBitVec.toNat := by
  rw [UInt32.le_def, BitVec.le_def]

theorem char_letter_facts (c : Char)
    (h : ('a' ≤ c ∧ c ≤ 'z') ∨ ('A' ≤ c ∧ c ≤ 'Z')) :
    c.isDigit = false ∧ c.isAlpha = true := by
  have hx : (97 ≤ c.val.toBitVec.toNat ∧ c.val.toBitVec.toNat ≤ 122) ∨
      (65 ≤ c.val.toBitVec.toNat ∧ c.val.toBitVec.toNat ≤ 90) := by
    rcases h with ⟨h1, h2⟩ | ⟨h1, h2⟩
    · left
      exact ⟨uint32_le_toNat.mp (h1 : (97 : UInt32) ≤ c.val),
        uint32_le_toNat.mp (h2 : c.val ≤ (122 : UInt32))⟩
    · right
      exact ⟨uint32_le_toNat.mp (h1 : (65 : UInt32) ≤ c.val),
        uint32_le_toNat.mp (h2 : c.val ≤ (90 : UInt32))⟩
  constructor
  · simp only [Char.isDigit]
    rw [Bool.and_eq_false_iff]
    right
    simp only [decide_eq_false_iff_not]
    intro hc
    have hc2 : c.val.toBitVec.toNat ≤ 57 := uint32_le_toNat.mp hc
    omega
  · simp only [Char.isAlpha, Char.isUpper, Char.isLower, Bool.or_eq_true, Bool.and_eq_true,
      decide_eq_true_iff, ge_iff_le]
    rcases hx with ⟨h1, h2⟩ | ⟨h1, h2⟩
    · right
      exact ⟨uint32_le_toNat.mpr h1, uint32_le_toNat.mpr h2⟩
    · left
      exact ⟨uint32_le_toNat.mpr h1, uint32_le_toNat.mpr h2⟩

theorem scanIdentRun_spec (text : List Char) :
    ∀ (fuel q : Nat) (acc : List Char), text.length ≤ q + fuel →
      scanIdentRun text fuel q acc =
        (acc ++ (text.drop q).takeWhile isIdentCont,
         q + ((text.drop q).takeWhile isIdentCont).length) := by
  intro fuel
  induction fuel with
  | zero =>
    intro q acc hq
    have hdrop : text.drop q = [] := List.drop_eq_nil_of_le (by omega)
    simp [scanIdentRun, hdrop]
  | succ f ih =>
    intro q acc hq
    cases hc : text.get? q with
    | none =>
      have hlen : text.length ≤ q := List.get?_eq_none.mp hc
      have hdrop : text.drop q = [] := List.drop_eq_nil_of_le hlen
      simp only [scanIdentRun]
      rw [hc, hdrop]
      simp
    | some c =>
      have hlt : q < text.length := by
        by_contra h2
        push_neg at h2
        rw [List.get?_eq_none.mpr h2] at hc
        exact Option.noConfusion hc
      have hgc : text[q] = c := by
        have := List.get?_eq_getElem? text q
        rw [hc, List.getElem?_eq_getElem hlt] at this
        exact (Option.some.inj this).symm
      have hdrop : text.drop q = c :: text.drop (q+1) := by
        rw [List.drop_eq_getElem_cons hlt, hgc]
      by_cases hcont : isIdentCont c
      · simp only [scanIdentRun]
        rw [hc]
        simp only [hcont, if_true]
        rw [ih (q+1) (acc ++ [c]) (by omega), hdrop, List.takeWhile_cons, if_pos hcont]
        simp only [List.append_assoc, List.singleton_append, List.length_cons,
          Prod.mk.injEq]
        exact ⟨trivial, by omega⟩
      · simp only [scanIdentRun]
        rw [hc]
        simp only [hcont, if_false, Bool.false_eq_true]
        rw [hdrop, List.takeWhile_cons, if_neg (by simp [hcont])]
        simp

/-! ## Per-claim theorems -/

/-- C1 (evidence for the code bug): on `int main(void){ return b; }` the
resolver would reject with UndeclaredVariable — `resolve_program` returns
exactly that error — but the driver path of `main.rs` calls
`parse_program` without resolution, parses successfully, and proceeds to
TAC generation with the undeclared `b`, so no UndeclaredVariable error is
surfaced. -/
theorem c1_undeclared_variable_not_surfaced :
    driverParse 100 "int main(void)\x7b return b; \x7d" =
      .ok (.program (.function "main" [.s (.ret (.factor (.exp (.var "b"))))])) ∧
    resolveProgram (.program (.function "main" [.s (.ret (.factor (.exp (.var "b"))))])) =
      .err "Variable 'b' not declared" ∧
    parseAndResolveProgram 100
      [⟨.KEYWORD, "int"⟩, ⟨.IDENTIFIER, "main"⟩, ⟨.OpenParen, "("⟩, ⟨.IDENTIFIER, "void"⟩,
       ⟨.CloseParen, ")"⟩, ⟨.OpenBrace, "\x7b"⟩, ⟨.KEYWORD, "return"⟩, ⟨.IDENTIFIER, "b"⟩,
       ⟨.SEMICOLON, ";"⟩, ⟨.CloseBrace, "\x7d"⟩] =
      .err "Variable 'b' not declared" ∧
    driverTac 100 "int main(void)\x7b return b; \x7d" =
      .ok (tac.Program.mk (tac.Function.mk "main" [.ret (.identifier "b")])) :=
  ⟨rfl, rfl, rfl, rfl⟩

/-- C2: lowering `a && b` emits, in order, the lowering of `a`, then
`Binary{NotEqual, lv, 0, bool_l}`, `Copy{bool_l, t}`,
`JumpIfZero{bool_l, L}`, then the lowering of `b` (entirely after the
jump), then `Binary{NotEqual, rv, 0, t}` and `Label L`, yielding `t`;
the symmetric sequence with `JumpIfNotZero` is emitted for `||`.  The
names are `t = tmp.n`, `L = label.n`, `bool_l = tmp.(n+1)` where `n` is
the instruction-list length after lowering `a`. -/
theorem c2_short_circuit_lowering (a b : Exp) (body bodyA : List tac.Instruction)
    (lv : tac.Val) (t L bl : tac.Val)
    (hA : Exp.generateTac a body = (lv, bodyA))
    (ht : t = .identifier (tmpName bodyA.length))
    (hL : L = .identifier (labelName bodyA.length))
    (hbl : bl = .identifier (tmpName (bodyA.length + 1))) :
    (∃ dA, bodyA = body ++ dA) ∧
    (∃ dB rv,
      Exp.generateTac b (bodyA ++
          [.binary .notEqual lv (.constant 0) bl, .copy bl t, .jumpIfZero bl L]) =
        (rv, (bodyA ++
          [.binary .notEqual lv (.constant 0) bl, .copy bl t, .jumpIfZero bl L]) ++ dB) ∧
      Exp.generateTac (.binary a BinaryOp.logicalAnd b) body =
        (t, ((bodyA ++
          [.binary .notEqual lv (.constant 0) bl, .copy bl t, .jumpIfZero bl L]) ++ dB) ++
          [.binary .notEqual rv (.constant 0) t, .label L])) ∧
    (∃ dB rv,
      Exp.generateTac b (bodyA ++
          [.binary .notEqual lv (.constant 0) bl, .copy bl t, .jumpIfNotZero bl L]) =
        (rv, (bodyA ++
          [.binary .notEqual lv (.constant 0) bl, .copy bl t, .jumpIfNotZero bl L]) ++ dB) ∧
      Exp.generateTac (.binary a BinaryOp.logicalOr b) body =
        (t, ((bodyA ++
          [.binary .notEqual lv (.constant 0) bl, .copy bl t, .jumpIfNotZero bl L]) ++ dB) ++
          [.binary .notEqual rv (.constant 0) t, .label L])) := by
  subst ht hL hbl
  have hsufA : ∃ dA, bodyA = body ++ dA := by
    obtain ⟨dA, hdA⟩ := Exp.generateTac_suffix_exp a body
    rw [hA] at hdA
    exact ⟨dA, hdA⟩
  refine ⟨hsufA, ?_, ?_⟩
  · obtain ⟨dB, hdB⟩ := Exp.generateTac_suffix_exp b (bodyA ++
      [.binary .notEqual lv (.constant 0) (.identifier (tmpName (bodyA.length + 1))),
       .copy (.identifier (tmpName (bodyA.length + 1))) (.identifier (tmpName bodyA.length)),
       .jumpIfZero (.identifier (tmpName (bodyA.length + 1)))
         (.identifier (labelName bodyA.length))])
    have key := Exp.generateTac_and a b body
    rw [hA] at key
    dsimp only at key
    rw [hdB] at key
    refine ⟨dB, (Exp.generateTac b (bodyA ++
      [.binary .notEqual lv (.constant 0) (.identifier (tmpName (bodyA.length + 1))),
       .copy (.identifier (tmpName (bodyA.length + 1))) (.identifier (tmpName bodyA.length)),
       .jumpIfZero (.identifier (tmpName (bodyA.length + 1)))
         (.identifier (labelName bodyA.length))])).1, ?_, key⟩
    rw [← hdB]
  · obtain ⟨dB, hdB⟩ := Exp.generateTac_suffix_exp b (bodyA ++
      [.binary .notEqual lv (.constant 0) (.identifier (tmpName (bodyA.length + 1))),
       .copy (.identifier (tmpName (bodyA.length + 1))) (.identifier (tmpName bodyA.length)),
       .jumpIfNotZero (.identifier (tmpName (bodyA.length + 1)))
         (.identifier (labelName bodyA.length))])
    have key := Exp.generateTac_or a b body
    rw [hA] at key
    dsimp only at key
    rw [hdB] at key
    refine ⟨dB, (Exp.generateTac b (bodyA ++
      [.binary .notEqual lv (.constant 0) (.identifier (tmpName (bodyA.length + 1))),
       .copy (.identifier (tmpName (bodyA.length + 1))) (.identifier (tmpName bodyA.length)),
       .jumpIfNotZero (.identifier (tmpName (bodyA.length + 1)))
         (.identifier (labelName bodyA.length))])).1, ?_, key⟩
    rw [← hdB]

/-- C2 witness: the short-circuit lowering shape at `1 && 2` / `1 || 2`
with an empty initial body. -/
theorem c2_short_circuit_lowering_witness :
    (∃ dA, ([] : List tac.Instruction) = [] ++ dA) ∧
    (∃ dB rv,
      Exp.generateTac (.factor (.int 2)) ([] ++
          [.binary .notEqual (.constant 1) (.constant 0) (.identifier (tmpName 1)),
           .copy (.identifier (tmpName 1)) (.identifier (tmpName 0)),
           .jumpIfZero (.identifier (tmpName 1)) (.identifier (labelName 0))]) =
        (rv, ([] ++
          [.binary .notEqual (.constant 1) (.constant 0) (.identifier (tmpName 1)),
           .copy (.identifier (tmpName 1)) (.identifier (tmpName 0)),
           .jumpIfZero (.identifier (tmpName 1)) (.identifier (labelName 0))]) ++ dB) ∧
      Exp.generateTac (.binary (.factor (.int 1)) BinaryOp.logicalAnd (.factor (.int 2))) [] =
        (.identifier (tmpName 0), (([] ++
          [.binary .notEqual (.constant 1) (.constant 0) (.identifier (tmpName 1)),
           .copy (.identifier (tmpName 1)) (.identifier (tmpName 0)),
           .jumpIfZero (.identifier (tmpName 1)) (.identifier (labelName 0))]) ++ dB) ++
          [.binary .notEqual rv (.constant 0) (.identifier (tmpName 0)),
           .label (.identifier (labelName 0))])) ∧
    (∃ dB rv,
      Exp.generateTac (.factor (.int 2)) ([] ++
          [.binary .notEqual (.constant 1) (.constant 0) (.identifier (tmpName 1)),
           .copy (.identifier (tmpName 1)) (.identifier (tmpName 0)),
           .jumpIfNotZero (.identifier (tmpName 1)) (.identifier (labelName 0))]) =
        (rv, ([] ++
          [.binary .notEqual (.constant 1) (.constant 0) (.identifier (tmpName 1)),
           .copy (.identifier (tmpName 1)) (.identifier (tmpName 0)),
           .jumpIfNotZero (.identifier (tmpName 1)) (.identifier (labelName 0))]) ++ dB) ∧
      Exp.generateTac (.binary (.factor (.int 1)) BinaryOp.logicalOr (.factor (.int 2))) [] =
        (.identifier (tmpName 0), (([] ++
          [.binary .notEqual (.constant 1) (.constant 0) (.identifier (tmpName 1)),
           .copy (.identifier (tmpName 1)) (.identifier (tmpName 0)),
           .jumpIfNotZero (.identifier (tmpName 1)) (.identifier (labelName 0))]) ++ dB) ++
          [.binary .notEqual rv (.constant 0) (.identifier (tmpName 0)),
           .label (.identifier (labelName 0))])) :=
  c2_short_circuit_lowering (.factor (.int 1)) (.factor (.int 2)) [] [] (.constant 1)
    (.identifier (tmpName 0)) (.identifier (labelName 0)) (.identifier (tmpName 1))
    rfl rfl rfl rfl

/-- C3: the precedence table matches the specification entry for entry,
assignment is right-associative (`a = b = c` parses as
`Assignment(a, Assignment(b, c))`), and every other operator is
left-associative (`1 - 2 - 3` as `Binary(Binary(1,-,2),-,3)`,
`1 << 2 + 3` as `Binary(Binary(1,<<,2),+,3)` since `<<` and `+` share
precedence 45). -/
theorem c3_precedence_climbing :
    (∀ op : BinaryOp, getOperatorPrecedence op =
      match op with
      | .multiply | .divide | .modulo => 50
      | .add | .subtract | .leftShift | .rightShift => 45
      | .bitwiseAnd => 44
      | .bitwiseXor => 43
      | .bitwiseOr => 42
      | .greaterThan | .lessThan | .greaterThanOrEqual | .lessThanOrEqual => 35
      | .equal | .notEqual => 30
      | .logicalAnd => 10
      | .logicalOr => 5
      | .assignment => 1) ∧
    parseExpression 20
      [⟨.IDENTIFIER, "a"⟩, ⟨.Assignment, "="⟩, ⟨.IDENTIFIER, "b"⟩, ⟨.Assignment, "="⟩,
       ⟨.IDENTIFIER, "c"⟩] 0 =
      .ok (.assignment (.factor (.exp (.var "a")))
        (.assignment (.factor (.exp (.var "b"))) (.factor (.exp (.var "c")))), []) ∧
    parseExpression 20
      [⟨.CONSTANT, "1"⟩, ⟨.NegationOp, "-"⟩, ⟨.CONSTANT, "2"⟩, ⟨.NegationOp, "-"⟩,
       ⟨.CONSTANT, "3"⟩] 0 =
      .ok (.binary (.binary (.factor (.int 1)) .subtract (.factor (.int 2))) .subtract
        (.factor (.int 3)), []) ∧
    parseExpression 20
      [⟨.CONSTANT, "1"⟩, ⟨.LeftShift, "<<"⟩, ⟨.CONSTANT, "2"⟩, ⟨.PLUS, "+"⟩,
       ⟨.CONSTANT, "3"⟩] 0 =
      .ok (.binary (.binary (.factor (.int 1)) .leftShift (.factor (.int 2))) .add
        (.factor (.int 3)), []) :=
  ⟨by intro op; cases op <;> rfl, rfl, rfl, rfl⟩

/-- C4: for every TAC program the assembly builder accepts, every
instruction after pseudo-resolution and legalization (`applyFixes`)
satisfies the operand-form constraints: no `Mov`/`Add`/`Sub`/`And`/`Or`/
`Xor` with two stack operands, no `Mul` with a stack destination, no
`Idiv` of an immediate, no `Cmp` with an immediate destination. -/
theorem c4_legalization_operand_forms (tp : tac.Program) (ap : assembly.Program)
    (h : assembly.generateAssemblyAst tp = .ok ap) :
    ∀ i ∈ ap.applyFixes.function.instructions, assembly.legalInstr i = true := by
  simp only [assembly.generateAssemblyAst, assembly.toAssemblyFunction] at h
  cases hb : assembly.instrsToAssembly tp.function.body with
  | ok instrs =>
    rw [hb, PRes.ok_bind, PRes.pure_eq, PRes.ok_bind, PRes.pure_eq] at h
    simp only [PRes.ok.injEq] at h
    subst h
    exact applyFixes_legal_of_ready _ (instrsToAssembly_mulSrcFromVal _ instrs hb)
  | err s => rw [hb, PRes.err_bind] at h; exact PRes.noConfusion h
  | panic => rw [hb, PRes.panic_bind] at h; exact PRes.noConfusion h
  | nofuel => rw [hb, PRes.nofuel_bind] at h; exact PRes.noConfusion h

/-- C4 witness: the legalization invariant holds on the concrete TAC
program `a * b` (which exercises the `Mul` fixups). -/
theorem c4_legalization_operand_forms_witness :
    assembly.generateAssemblyAst
        (tac.Program.mk (tac.Function.mk "main"
          [.binary .multiply (.identifier "a") (.identifier "b") (.identifier "tmp.1"),
           .ret (.identifier "tmp.1")])) =
      .ok (assembly.Program.mk (assembly.Function.mk "main"
        [.mov (.pseudo "a") (.pseudo "tmp.1"),
         .binary .mul (.pseudo "b") (.pseudo "tmp.1"),
         .mov (.pseudo "tmp.1") (.register .ax),
         .ret])) ∧
    (∀ i ∈ (assembly.Program.mk (assembly.Function.mk "main"
        [.mov (.pseudo "a") (.pseudo "tmp.1"),
         .binary .mul (.pseudo "b") (.pseudo "tmp.1"),
         .mov (.pseudo "tmp.1") (.register .ax),
         .ret])).applyFixes.function.instructions,
      assembly.legalInstr i = true) :=
  ⟨rfl, c4_legalization_operand_forms
    (tac.Program.mk (tac.Function.mk "main"
      [.binary .multiply (.identifier "a") (.identifier "b") (.identifier "tmp.1"),
       .ret (.identifier "tmp.1")])) _ rfl⟩

/-- C5 (evidence for the code bug): on the truncated input
`int main(void){` the parser's block-item loop indexes `tokens[0]` on an
empty buffer and panics instead of returning an `Err`, and a constant
whose digits exceed `i32::MAX` panics in `parse_factor`'s
`.parse().unwrap()`. -/
theorem c5_parser_panics :
    driverParse 100 "int main(void)\x7b" = .panic ∧
    parseFactor 10 [⟨.CONSTANT, "2147483648"⟩] = .panic ∧
    driverParse 100 "int main(void)\x7b return 2147483648; \x7d" = .panic :=
  ⟨rfl, rfl, rfl⟩

/-- C6: for a function named `main`, TAC generation appends exactly one
`Return(Constant(0))` when the lowered body contains no `Return`
instruction, and appends nothing when it already contains one. -/
theorem c6_main_implicit_return (name : String) (items : List BlockItem)
    (hname : name = "main") :
    ((itemsGenerateTac items []).any tac.Instruction.isReturn = false →
      (FunctionDeclaration.generateTac (.function name items)).body =
        itemsGenerateTac items [] ++ [.ret (.constant 0)]) ∧
    ((itemsGenerateTac items []).any tac.Instruction.isReturn = true →
      (FunctionDeclaration.generateTac (.function name items)).body =
        itemsGenerateTac items []) := by
  subst hname
  constructor
  · intro hno
    simp [FunctionDeclaration.generateTac, hno]
  · intro hyes
    simp [FunctionDeclaration.generateTac, hyes]

/-- C6 witness: a `main` body with no `Return` gets the implicit
`Return(Constant(0))`; one with a `Return` is left unchanged. -/
theorem c6_main_implicit_return_witness :
    (FunctionDeclaration.generateTac (.function "main" [.s .null])).body =
      itemsGenerateTac [.s .null] [] ++ [.ret (.constant 0)] ∧
    (FunctionDeclaration.generateTac
        (.function "main" [.s (.ret (.factor (.int 2)))])).body =
      itemsGenerateTac [.s (.ret (.factor (.int 2)))] [] :=
  ⟨(c6_main_implicit_return "main" [.s .null] rfl).1 (by decide),
   (c6_main_implicit_return "main" [.s (.ret (.factor (.int 2)))] rfl).2 (by decide)⟩

/-- C7 counterexample: the claim's reserved set contains `void`, but the
lexer classifies `void` as an identifier, not a keyword — the claimed
"keyword iff in the seven-word set" fails at the lexeme `void`. -/
theorem c7_void_is_identifier :
    lexNext "void".data 0 = .ok (some (⟨.IDENTIFIER, "void"⟩, 4)) ∧
    "void" ∈ ["int", "void", "return", "if", "else", "while", "for"] ∧
    TokenType.IDENTIFIER ≠ TokenType.KEYWORD :=
  ⟨rfl, by decide, by decide⟩

/-- C7 (amended): the reserved set is exactly
`{if, else, while, for, return, int}` — six words, without `void` — and a
scanned identifier-shaped lexeme gets keyword type iff it is one of
them. -/
theorem c7_keyword_set (text : List Char) (pos pos2 : Nat) (t : Token)
    (h : scanIdentifier text pos = .ok (t, pos2)) :
    (t.tokenType = TokenType.KEYWORD ↔ t.value ∈ keywords) ∧
    keywords = ["if", "else", "while", "for", "return", "int"] := by
  refine ⟨?_, rfl⟩
  simp only [scanIdentifier] at h
  cases hc : text.get? pos with
  | none => rw [hc] at h; exact PRes.noConfusion h
  | some first =>
    rw [hc] at h
    by_cases ha : (first.isAlpha || decide (first = '_')) = true
    · simp only [ha, if_true] at h
      by_cases hk : keywords.contains
          (String.mk (first :: (scanIdentRun text (text.length + 1) (pos + 1) []).1)) = true
      · simp only [hk, if_true] at h
        simp only [PRes.ok.injEq, Prod.mk.injEq] at h
        obtain ⟨ht, _⟩ := h
        rw [← ht]
        simp only [true_iff]
        exact List.mem_of_elem_eq_true hk
      · simp only [hk, Bool.false_eq_true, if_false] at h
        simp only [PRes.ok.injEq, Prod.mk.injEq] at h
        obtain ⟨ht, _⟩ := h
        rw [← ht]
        constructor
        · intro hcontra
          exact TokenType.noConfusion hcontra
        · intro hmem
          exact absurd (List.elem_eq_true_of_mem hmem) (by simpa using hk)
    · simp only [ha, Bool.false_eq_true, if_false] at h
      exact PRes.noConfusion h

/-- C7 witness: scanning `int` produces a keyword token satisfying the
amended iff. -/
theorem c7_keyword_set_witness :
    ((Token.mk TokenType.KEYWORD "int").tokenType = TokenType.KEYWORD ↔
      (Token.mk TokenType.KEYWORD "int").value ∈ keywords) ∧
    keywords = ["if", "else", "while", "for", "return", "int"] :=
  c7_keyword_set "int;".data 0 3 (Token.mk TokenType.KEYWORD "int") rfl

/-- C9 counterexample: an identifier beginning with `_` is not lexed; the
dispatch of `Lex::next` covers only `a..z | A..Z`, so `_x` falls through
to the invalid-character error. -/
theorem c9_underscore_rejected :
    lexNext "_x".data 0 =
      .err "Invalid character '_' found at position 0 in text '_x'" := rfl

/-- C9 (amended): when the first non-whitespace character is an ASCII
letter, the lexer scans the maximal run of `[A-Za-z0-9_]` characters and
produces a single keyword-or-identifier token covering it; a leading
underscore is instead rejected with the invalid-character error. -/
theorem c9_identifier_scan (text : List Char) (pos0 p : Nat)
    (hp : skipWhitespace text (text.length + 1) pos0 = p) :
    (∀ c, text.get? p = some c →
      (('a' ≤ c ∧ c ≤ 'z') ∨ ('A' ≤ c ∧ c ≤ 'Z')) →
      lexNext text pos0 = .ok (some
        (⟨(if keywords.contains (String.mk (c :: (text.drop (p+1)).takeWhile isIdentCont))
             then TokenType.KEYWORD else TokenType.IDENTIFIER),
          String.mk (c :: (text.drop (p+1)).takeWhile isIdentCont)⟩,
         p + 1 + ((text.drop (p+1)).takeWhile isIdentCont).length))) ∧
    (text.get? p = some '_' →
      lexNext text pos0 = .err ("Invalid character '_' found at position " ++
        natToString p ++ " in text '" ++ String.mk text ++ "'")) := by
  constructor
  · intro c hc hletter
    obtain ⟨hdig, halpha⟩ := char_letter_facts c hletter
    simp only [lexNext, hp]
    rw [hc]
    simp only [hdig, Bool.false_eq_true, if_false, if_pos hletter]
    simp only [scanIdentifier]
    rw [hc]
    simp only [halpha, Bool.true_or, if_true]
    rw [scanIdentRun_spec text (text.length + 1) (p + 1) [] (by omega)]
    simp only [List.nil_append, PRes.ok_bind, PRes.pure_eq]
    by_cases hk : keywords.contains
        (String.mk (c :: (text.drop (p+1)).takeWhile isIdentCont)) = true
    · rw [if_pos hk, if_pos hk]
      rfl
    · rw [if_neg hk, if_neg hk]
      rfl
  · intro hc
    simp only [lexNext, hp]
    rw [hc]
    rfl

/-- C9 witness: the maximal-run scan at a concrete letter-start input
(`ab1_c+` scans `ab1_c` and stops at `+`). -/
theorem c9_identifier_scan_witness :
    lexNext "ab1_c+".data 0 = .ok (some
      (⟨(if keywords.contains (String.mk ('a' :: ("ab1_c+".data.drop 1).takeWhile isIdentCont))
           then TokenType.KEYWORD else TokenType.IDENTIFIER),
        String.mk ('a' :: ("ab1_c+".data.drop 1).takeWhile isIdentCont)⟩,
       0 + 1 + (("ab1_c+".data.drop 1).takeWhile isIdentCont).length)) :=
  (c9_identifier_scan "ab1_c+".data 0 0 rfl).1 'a' rfl (by decide)

/-- C8: in the TAC lowering of any function, all compiler-generated names
(`tmp.N`, `label.N`, allocated from the instruction-list length at the
allocation site as recorded by `allocs`) are mutually distinct; every
identifier in the emitted body is a user variable of the function or one
of these generated names; and no generated name can equal a user variable
name that contains no dot (identifiers from the lexer never contain a
dot). -/
theorem c8_generated_names_fresh (fd : FunctionDeclaration) :
    (fd.allocs.map GName.render).Nodup ∧
    (∀ s ∈ idsOf fd.generateTac.body, s ∈ fd.vars ∨ s ∈ fd.allocs.map GName.render) ∧
    (∀ g ∈ fd.allocs, ∀ v ∈ fd.vars, ('.' ∈ v.data → False) → GName.render g ≠ v) := by
  refine ⟨?_, FunctionDeclaration.generateTac_ids_fn fd, ?_⟩
  · exact (FunctionDeclaration.allocs_nodup_fn fd).map
      (fun g1 g2 hr => GName.render_inj g1 g2 hr)
  · intro g _ v _ hv
    exact GName.render_ne_dotfree g v hv

/-- C8 witness: for the resolved program `int a = 1; return a && 2;` the
generated names `tmp.1`, `label.1`, `tmp.2` are distinct and distinct from
the user variable `a`. -/
theorem c8_generated_names_fresh_witness :
    ((FunctionDeclaration.function "main"
        [.d (.decl "a" (some (.factor (.int 1)))),
         .s (.ret (.binary (.factor (.exp (.var "a"))) .logicalAnd
              (.factor (.int 2))))]).allocs.map GName.render).Nodup ∧
    GName.render (GName.tmp 1) ≠ "a" :=
  ⟨(c8_generated_names_fresh _).1,
   (c8_generated_names_fresh (FunctionDeclaration.function "main"
      [.d (.decl "a" (some (.factor (.int 1)))),
       .s (.ret (.binary (.factor (.exp (.var "a"))) .logicalAnd
            (.factor (.int 2))))])).2.2
     (GName.tmp 1) (by decide) "a" (by decide) (by decide)⟩

/-- C10: on the single flat scope, resolution is the identity on accepted
programs — `make_temporary` returns the candidate name unchanged whenever
it is unmapped, and every program `resolve_program` accepts comes back
structurally equal. -/
theorem c10_resolution_identity :
    (∀ (name : String) (t : SymbolTable), t.lookup name = none →
      makeTemporary name t = name) ∧
    (∀ p p2 : Program, resolveProgram p = .ok p2 → p2 = p) :=
  ⟨makeTemporary_not_mem, resolveProgram_id⟩

/-- C10 witness: `make_temporary` keeps an unmapped name, and the resolved
form of `int a = 1; return a;` is the program itself. -/
theorem c10_resolution_identity_witness :
    makeTemporary "a" [("b", "b")] = "a" ∧
    (Program.program (.function "main"
        [.d (.decl "a" (some (.factor (.int 1)))),
         .s (.ret (.factor (.exp (.var "a"))))]) : Program) =
      .program (.function "main"
        [.d (.decl "a" (some (.factor (.int 1)))),
         .s (.ret (.factor (.exp (.var "a"))))]) :=
  ⟨c10_resolution_identity.1 "a" [("b", "b")] rfl,
   c10_resolution_identity.2
     (.program (.function "main"
        [.d (.decl "a" (some (.factor (.int 1)))),
         .s (.ret (.factor (.exp (.var "a"))))])) _ rfl⟩

end CComp
